import Mathlib

/-!
Verification development for the copyright-certificate extractor.

Strings are modelled as `List Char`.  Python's regular-expression searches
are embedded as deterministic scanning functions over `List Char`; each
matcher below is derived from one concrete pattern of the source and its
backtracking behaviour has been determinized for that pattern.  Python's
`\s` (and `str.strip`'s default set) is modelled by `isPySpace`; Python's
`\d` is modelled by ASCII digits (the inputs considered contain no other
decimal digits).
-/

namespace CCE

/-- Convert a string literal to the `List Char` representation. -/
def str (s : String) : List Char := s.toList

/-- Whitespace as matched by Python's `\s` and stripped by `str.strip()`. -/
def isPySpace (c : Char) : Bool :=
  c == ' ' || c == '\t' || c == '\n' || c == '\x0b' || c == '\x0c' || c == '\r' ||
  c == '\x1c' || c == '\x1d' || c == '\x1e' || c == '\x1f' || c == '\x85' || c == '\xa0' ||
  c == ' ' || (decide (' ' ≤ c) && decide (c ≤ ' ')) ||
  c == ' ' || c == ' ' || c == ' ' || c == ' ' || c == '　'

/-- Greedy `\s*`: drop a maximal run of whitespace. -/
def skipWs (l : List Char) : List Char := l.dropWhile isPySpace

/-- Drop a maximal run of characters satisfying `p` from the right end. -/
def dropWhileRight (p : Char → Bool) (l : List Char) : List Char :=
  (l.reverse.dropWhile p).reverse

/-- Python's `str.strip()` with no arguments. -/
def pyStrip (l : List Char) : List Char := dropWhileRight isPySpace (l.dropWhile isPySpace)

/-- Python's `str.split('\n')`. -/
def splitLines : List Char → List (List Char)
  | [] => [[]]
  | c :: cs =>
    match splitLines cs with
    | [] => [[c]]
    | l :: ls => if c = '\n' then [] :: l :: ls else (c :: l) :: ls

/-- Python's `'\n'.join(lines)`. -/
def joinLines : List (List Char) → List Char
  | [] => []
  | [l] => l
  | l :: ls => l ++ '\n' :: joinLines ls

/-- Lines 74-75 of `parse_copyright.py`: strip each line, drop empty lines,
rejoin with a single newline.  All field regexes run on this text. -/
def normalizeText (s : List Char) : List Char :=
  joinLines (((splitLines s).map pyStrip).filter (fun l => !l.isEmpty))

/-- Match a literal character sequence at the start of the input,
returning the rest (the label part of an unspaced pattern). -/
def matchLit : List Char → List Char → Option (List Char)
  | [], s => some s
  | _ :: _, [] => none
  | c :: cs, x :: xs => if x = c then matchLit cs xs else none

/-- Match a label whose characters are separated by `\s*` in the pattern
(e.g. `登\s*记\s*号`): each label character is consumed and, before every
following label character, a maximal whitespace run is skipped. -/
def matchLabel : List Char → List Char → Option (List Char)
  | [], s => some s
  | _ :: _, [] => none
  | c :: cs, x :: xs =>
    if x = c then
      match cs with
      | [] => some xs
      | _ :: _ => matchLabel cs (skipWs xs)
    else none

/-- Driver for `re.search`: try the matcher at every position, leftmost first,
including the empty position at the end. -/
def searchWith (f : List Char → Option (List Char)) : List Char → Option (List Char)
  | [] => f []
  | c :: cs =>
    match f (c :: cs) with
    | some v => some v
    | none => searchWith f cs

/-- Search for a spaced label followed by a tail pattern. -/
def labelSearch (l : List Char) (tailF : List Char → Option (List Char)) :
    List Char → Option (List Char) :=
  searchWith (fun s => (matchLabel l s).bind tailF)

/-- Search for a literal label followed by a tail pattern. -/
def litSearch (l : List Char) (tailF : List Char → Option (List Char)) :
    List Char → Option (List Char) :=
  searchWith (fun s => (matchLit l s).bind tailF)

/-- Rightmost non-newline character of a pure-whitespace run `w`, together
with the newline run following it.  Used to determinize the backtracking of
`\s*` before `([^\n]+)` when the greedy attempt hits the end of input. -/
def lastNonNlSplit (w : List Char) : Option (Char × List Char) :=
  match w.reverse.dropWhile (fun c => c == '\n') with
  | [] => none
  | e :: _ => some (e, (w.reverse.takeWhile (fun c => c == '\n')).reverse)

/-- Determinization of `\s*[seps]?\s*([^\n]+)` under Python backtracking:
returns the captured group and the input remaining after it.
The greedy path skips whitespace, takes one separator if present, skips
whitespace again and captures up to the next newline; if the capture finds
no character (end of input), backtracking yields the rightmost non-newline
whitespace character, and failing that the separator itself. -/
def tailCap (seps : List Char) (s : List Char) : Option (List Char × List Char) :=
  match skipWs s with
  | c :: r2 =>
    if c ∈ seps then
      match skipWs r2 with
      | d :: ds =>
        some ((d :: ds).takeWhile (fun x => !(x == '\n')),
              (d :: ds).dropWhile (fun x => !(x == '\n')))
      | [] =>
        match lastNonNlSplit r2 with
        | some (e, v) => some ([e], v)
        | none => some ([c], r2)
    else
      some ((c :: r2).takeWhile (fun x => !(x == '\n')),
            (c :: r2).dropWhile (fun x => !(x == '\n')))
  | [] =>
    match lastNonNlSplit (s.takeWhile isPySpace) with
    | some (e, v) => some ([e], v)
    | none => none

/-- Value part `([0-9]{4}SR[0-9]+)` of the registration-number pattern. -/
def regValue : List Char → Option (List Char)
  | d1 :: d2 :: d3 :: d4 :: 'S' :: 'R' :: rest =>
    if d1.isDigit && d2.isDigit && d3.isDigit && d4.isDigit then
      let ds := rest.takeWhile Char.isDigit
      if ds.isEmpty then none else some (d1 :: d2 :: d3 :: d4 :: 'S' :: 'R' :: ds)
    else none
  | _ => none

/-- Tail `\s*[:：;]?\s*([0-9]{4}SR[0-9]+)` of the 登记号 pattern
(line 79 of `parse_copyright.py`; note: no comma in the separator class). -/
def regTail (s : List Char) : Option (List Char) :=
  match skipWs s with
  | c :: r =>
    if c == ':' || c == '：' || c == ';' then regValue (skipWs r)
    else regValue (c :: r)
  | [] => none

/-- Tail `\s*(\d{6,})` of the serial-number pattern (line 85). -/
def serialTail (s : List Char) : Option (List Char) :=
  let ds := (skipWs s).takeWhile Char.isDigit
  if ds.length < 6 then none else some ds

/-- Substitution `re.sub(r'^[:：,，.\-]\s*', '', ...)` applied to the raw owner value
(line 94). -/
def subLeadOwnerPunct (s : List Char) : List Char :=
  match s with
  | c :: cs =>
    if c == ':' || c == '：' || c == ',' || c == '，' || c == '.' || c == '-' then skipWs cs
    else c :: cs
  | [] => []

/-- Tail of the 著作权人 pattern `\s*[:：;,]?\s*([^\n]+)` with the
post-processing of lines 93-94 (strip, then strip one leading punctuation
character and following whitespace). -/
def ownerTail (s : List Char) : Option (List Char) :=
  match tailCap [':', '：', ';', ','] s with
  | none => none
  | some (g1, _) => some (subLeadOwnerPunct (pyStrip g1))

/-- Tail of the 权利取得方式 and 权利范围 patterns:
`\s*[:：;,]?\s*([^\n]+)` with `.strip()` applied to the captured group. -/
def lineTail (s : List Char) : Option (List Char) :=
  match tailCap [':', '：', ';', ','] s with
  | none => none
  | some (g1, _) => some (pyStrip g1)

/-- Substitution `re.sub(r'^[:：]\s*', '', ...)` applied to the continuation line of a
software name (line 111). -/
def subLeadColon (s : List Char) : List Char :=
  match s with
  | c :: cs => if c == ':' || c == '：' then skipWs cs else c :: cs
  | [] => []

/-- Line 110: does the (stripped) continuation line start with another
field label (`著作权人|版本号|V\d|首次发表|权利|开发完成`)? -/
def startsOtherField (s : List Char) : Bool :=
  (str ("著作权人")).isPrefixOf s || (str ("版本号")).isPrefixOf s ||
  (match s with | 'V' :: c :: _ => c.isDigit | _ => false) ||
  (str ("首次发表")).isPrefixOf s || (str ("权利")).isPrefixOf s ||
  (str ("开发完成")).isPrefixOf s

/-- Optional continuation group `(?:\n\s*[:：]?\s*([^\n]+))?` of the
software-name pattern (lines 98-101). -/
def contTail (s : List Char) : Option (List Char × List Char) :=
  match s with
  | '\n' :: rest => tailCap [':', '：'] rest
  | _ => none

/-- Tail of the 软件名称 pattern: first-line capture, then the optional
continuation line joined per lines 102-114. -/
def nameTail (s : List Char) : Option (List Char) :=
  match tailCap [':', '：', ';', ','] s with
  | none => none
  | some (g1, rest) =>
    let part1 := pyStrip g1
    match contTail rest with
    | none => some part1
    | some (g2, _) =>
      let part2 := pyStrip g2
      if startsOtherField part2 then some part1
      else some (part1 ++ ' ' :: subLeadColon part2)

/-- Search `re.search(r'登\s*记\s*号\s*[:：;]?\s*([0-9]{4}SR[0-9]+)', ...)`. -/
def reg_search : List Char → Option (List Char) := labelSearch (str ("登记号")) regTail

/-- Search `re.search(r'No\.\s*(\d{6,})', ...)`. -/
def serial_search : List Char → Option (List Char) := litSearch (str ("No.")) serialTail

/-- Search `re.search(r'著\s*作\s*权\s*人\s*[:：;,]?\s*([^\n]+)', ...)` plus the
owner post-processing. -/
def owner_search : List Char → Option (List Char) := labelSearch (str ("著作权人")) ownerTail

/-- The software-name search of lines 98-114. -/
def name_search : List Char → Option (List Char) := labelSearch (str ("软件名称")) nameTail

/-- Pattern `\d{1,2}` followed by a literal marker character (月 or 日), with the
greedy two-digit attempt preferred. -/
def matchD12 (mark : Char) : List Char → Option (List Char × List Char)
  | a :: b :: rest =>
    if a.isDigit then
      if b.isDigit then
        match rest with
        | c :: rest2 => if c = mark then some ([a, b], rest2) else none
        | [] => none
      else if b = mark then some ([a], rest) else none
    else none
  | _ => none

/-- Second alternative `未发表` of the date value pattern. -/
def weiCheck (s : List Char) : Option (List Char) :=
  if (str ("未发表")).isPrefixOf s then some (str ("未发表")) else none

/-- Value alternation `(\d{4}年\d{1,2}月\d{1,2}日|未发表)`. -/
def dateValue (s : List Char) : Option (List Char) :=
  match s with
  | d1 :: d2 :: d3 :: d4 :: '年' :: rest =>
    if d1.isDigit && d2.isDigit && d3.isDigit && d4.isDigit then
      match matchD12 '月' rest with
      | some (m, rest2) =>
        match matchD12 '日' rest2 with
        | some (dd, _) => some (d1 :: d2 :: d3 :: d4 :: '年' :: (m ++ '月' :: dd ++ ['日']))
        | none => weiCheck s
      | none => weiCheck s
    else weiCheck s
  | _ => weiCheck s

/-- Tail `\s*[:：;,]?\s*(\d{4}年\d{1,2}月\d{1,2}日|未发表)` of the
publication-date pattern. -/
def dateTail (s : List Char) : Option (List Char) :=
  match skipWs s with
  | c :: r =>
    if c == ':' || c == '：' || c == ';' || c == ',' then dateValue (skipWs r)
    else dateValue (c :: r)
  | [] => none

/-- Search `re.search(r'首次发表日期\s*[:：;,]?\s*(\d{4}年\d{1,2}月\d{1,2}日|未发表)', ...)`.
Note the label 首次发表日期 is matched verbatim (no `\s*` between its
characters). -/
def date_search : List Char → Option (List Char) := litSearch (str ("首次发表日期")) dateTail

/-- Search `re.search(r'权利取得方式\s*[:：;,]?\s*([^\n]+)', ...)` (verbatim label). -/
def method_search : List Char → Option (List Char) := litSearch (str ("权利取得方式")) lineTail

/-- Search `re.search(r'权\s*利\s*范\s*围\s*[:：;,]?\s*([^\n]+)', ...)`. -/
def scope_search : List Char → Option (List Char) := labelSearch (str ("权利范围")) lineTail

/-- One certificate record as produced by `_parse_single_block`: the seven
extracted fields (dictionary keys 序号, 著作权人, 软件名称, 首次发表日期,
权利取得方式, 权利范围, 登记号 in the source), all defaulting to the empty
string. -/
structure Record where
  serial_number : List Char
  owner : List Char
  software_name : List Char
  publication_date : List Char
  acquisition_method : List Char
  rights_scope : List Char
  registration_number : List Char
deriving DecidableEq

/-- Field value from an optional match: the captured value when the search
succeeded, the empty string otherwise. -/
def getOr (o : Option (List Char)) : List Char := o.getD []

/-- Model of `_parse_single_block` of `parse_copyright.py`: normalize the text, then
run the seven independent field searches on it. -/
def parse_single_block (text : List Char) : Record :=
  let ct := normalizeText text
  { serial_number := getOr (serial_search ct)
  , owner := getOr (owner_search ct)
  , software_name := getOr (name_search ct)
  , publication_date := getOr (date_search ct)
  , acquisition_method := getOr (method_search ct)
  , rights_scope := getOr (scope_search ct)
  , registration_number := getOr (reg_search ct) }

/-- Line 187/202: `any([序号, 登记号, 软件名称, 著作权人])`. -/
def anyKeyField (d : Record) : Bool :=
  !(d.serial_number.isEmpty) || !(d.registration_number.isEmpty) ||
  !(d.software_name.isEmpty) || !(d.owner.isEmpty)

/-- One match of the page delimiter pattern `--- Page \d+ ---` at the start
of the input, returning the input after the delimiter. -/
def matchPageDelim (s : List Char) : Option (List Char) :=
  match matchLit (str ("--- Page ")) s with
  | none => none
  | some s1 =>
    let ds := s1.takeWhile Char.isDigit
    if ds.isEmpty then none
    else matchLit (str (" ---")) (s1.dropWhile Char.isDigit)

/-- Scanner for `re.split(r'--- Page \d+ ---', text)`: leftmost matches,
non-overlapping.  The fuel argument bounds recursion; every step consumes at
least one character, so fuel equal to the input length never runs out. -/
def splitGo : Nat → List Char → List Char → List (List Char)
  | _, acc, [] => [acc.reverse]
  | 0, acc, s => [acc.reverse ++ s]
  | fuel + 1, acc, c :: cs =>
    match matchPageDelim (c :: cs) with
    | some rest => acc.reverse :: splitGo fuel [] rest
    | none => splitGo fuel (c :: acc) cs

/-- Split `re.split(r'--- Page \d+ ---', text)` (line 171). -/
def splitPages (s : List Char) : List (List Char) := splitGo s.length [] s

/-- The page segments actually processed by the loop of lines 175-196: the
split segments that are not empty after stripping. -/
def nonWsPages (text : List Char) : List (List Char) :=
  (splitPages text).filter (fun p => !(pyStrip p).isEmpty)

/-- Model of `parse_copyright_text` of `parse_copyright.py`: errors model the raised
`ValidationError`s; `_parse_single_block` never raises in this model (its
internal `try` guards library failures that cannot occur here). -/
def parse_copyright_text (text : List Char) : Except (List Char) (List Record) :=
  if (pyStrip text).isEmpty then Except.error (str ("Empty text provided for parsing"))
  else
    let results := ((nonWsPages text).map parse_single_block).filter anyKeyField
    let results2 :=
      if results.isEmpty && !(pyStrip text).isEmpty then
        let d := parse_single_block text
        if anyKeyField d then [d] else []
      else results
    if results2.isEmpty then
      Except.error (str ("No valid certificate data extracted from text"))
    else Except.ok results2

/-- Python's `str.replace(ch, '')` for a single character: remove every
occurrence. -/
def remChar (ch : Char) : List Char → List Char
  | [] => []
  | c :: cs => if c = ch then remChar ch cs else c :: remChar ch cs

/-- Python's `str.replace('||', '')`: scan left to right, removing
non-overlapping adjacent pairs. -/
def remPair (a b : Char) : List Char → List Char
  | [] => []
  | [c] => [c]
  | c :: d :: rest =>
    if c = a ∧ d = b then remPair a b rest else c :: remPair a b (d :: rest)

/-- Python's `str.replace(p, r)` for a two-character pattern `[a, b]` and a
two-character replacement `[c, d]`: leftmost non-overlapping occurrences. -/
def rep2 (a b c d : Char) : List Char → List Char
  | [] => []
  | [x] => [x]
  | x :: y :: rest =>
    if x = a ∧ y = b then c :: d :: rep2 a b c d rest
    else x :: rep2 a b c d (y :: rest)

/-- Scanner for `re.sub(r'\s+', ' ', text)`: the flag records whether the
scanner is inside a whitespace run whose single `' '` was already emitted. -/
def collapseGo : Bool → List Char → List Char
  | _, [] => []
  | prevWs, c :: cs =>
    if isPySpace c then
      if prevWs then collapseGo true cs else ' ' :: collapseGo true cs
    else c :: collapseGo false cs

/-- Substitution `re.sub(r'\s+', ' ', text)` (line 39 of `generate_excel.py`). -/
def collapseWs (l : List Char) : List Char := collapseGo false l

/-- Characters of the punctuation class `[,，.:：;；\s]` of lines 35-36. -/
def isPunctWs (c : Char) : Bool :=
  c == ',' || c == '，' || c == '.' || c == ':' || c == '：' || c == ';' || c == '；' ||
  isPySpace c

/-- Model of `clean_text` of `generate_excel.py`: noise-character removal, strip,
leading/trailing punctuation strip, whitespace collapsing, the OCR
substitution table, final strip.  The two quote replacements on line 31
both name the straight double quote. -/
def clean_text (s : List Char) : List Char :=
  if s.isEmpty then []
  else
    let t := remChar '|' s
    let t := remPair '|' '|' t
    let t := remChar '，' t
    let t := remChar '。' t
    let t := remChar '"' t
    let t := remChar '"' t
    let t := pyStrip t
    let t := t.dropWhile isPunctWs
    let t := dropWhileRight isPunctWs t
    let t := collapseWs t
    let t := rep2 '基' '浮' '悬' '浮' t
    let t := rep2 '折' '又' '折' '叠' t
    let t := rep2 '钦' '件' '软' '件' t
    let t := rep2 '重' '法' '方' '法' t
    pyStrip t

/-- Variant of `clean_text` restricted to its steps 1-3 (noise removal, punctuation
strip, whitespace collapsing).  Modelled from the spec: section 4.4 claims
registration numbers are cleaned "with steps 1–3 only (no substitution
table)"; this definition follows those words and is compared against the
code's uniform `clean_text`. -/
def clean_text_steps123 (s : List Char) : List Char :=
  if s.isEmpty then []
  else
    let t := remChar '|' s
    let t := remPair '|' '|' t
    let t := remChar '，' t
    let t := remChar '。' t
    let t := remChar '"' t
    let t := remChar '"' t
    let t := pyStrip t
    let t := t.dropWhile isPunctWs
    let t := dropWhileRight isPunctWs t
    let t := collapseWs t
    pyStrip t

/-- A cleaned record as produced by `validate_and_clean_data`: the six
emitted fields plus the preserved original serial number (`_原始序号`). -/
structure Cleaned where
  owner : List Char
  software_name : List Char
  publication_date : List Char
  acquisition_method : List Char
  rights_scope : List Char
  registration_number : List Char
  original_serial : List Char
deriving DecidableEq

/-- Match `re.match(r'^\d{4}SR\d+$', reg)` (line 70): anchored at the start;
`$` also matches just before one final newline. -/
def regFormatOk (s : List Char) : Bool :=
  match s with
  | d1 :: d2 :: d3 :: d4 :: 'S' :: 'R' :: rest =>
    d1.isDigit && d2.isDigit && d3.isDigit && d4.isDigit &&
    (let ds := rest.takeWhile Char.isDigit
     !ds.isEmpty && (rest.drop ds.length == [] || rest.drop ds.length == ['\n']))
  | _ => false

/-- Model of `validate_and_clean_data` of `generate_excel.py`: `clean_text` is
applied to every field; the registration number is kept whether or not it
matches the expected format (both branches of lines 70-73 assign the same
cleaned value). -/
def validate_and_clean_data (r : Record) : Cleaned :=
  let reg := clean_text r.registration_number
  { owner := clean_text r.owner
  , software_name := clean_text r.software_name
  , publication_date := clean_text r.publication_date
  , acquisition_method := clean_text r.acquisition_method
  , rights_scope := clean_text r.rights_scope
  , registration_number := if !reg.isEmpty && regFormatOk reg then reg else reg
  , original_serial := clean_text r.serial_number }

/-- The discard filter of lines 127-132: a cleaned record is kept when any
of software name, owner or registration number is non-empty. -/
def keepRecord (c : Cleaned) : Bool :=
  !(c.software_name.isEmpty) || !(c.owner.isEmpty) || !(c.registration_number.isEmpty)

/-- Model of `cleaned_data` of `generate_excel` (lines 122-134): clean every input
record, dropping those with no key field. -/
def cleanedData (l : List Record) : List Cleaned :=
  (l.map validate_and_clean_data).filter keepRecord

/-- The writing loop of lines 137-151: `enumerate(cleaned_data, 2)` with
`auto_number = row_idx - 1` pairs each surviving record with its
auto-generated sequential number. -/
def writeRows : Nat → List Cleaned → List (Nat × Cleaned)
  | _, [] => []
  | rowIdx, item :: rest => (rowIdx - 1, item) :: writeRows (rowIdx + 1) rest

/-- The data rows of the generated sheet: surviving records numbered from
1 in encounter order. -/
def excelRows (l : List Record) : List (Nat × Cleaned) :=
  writeRows 2 (cleanedData l)

/-- One input file as seen by `batch_extract`: its name, its stem (name
without extension), whether its extension marks an image, and the outcome
of `extract_text` on it (a raised `OCRError` or the returned text). -/
structure BatchFile where
  name : List Char
  stem : List Char
  isImage : Bool
  ocrResult : Except (List Char) (List Char)

/-- Python substring containment (`kw in clean_name`). -/
def containsSub (pat : List Char) : List Char → Bool
  | [] => pat.isEmpty
  | c :: cs => pat.isPrefixOf (c :: cs) || containsSub pat cs

/-- Lines 72-80 of `batch_extract.py`: the filename fallback for the
software name of image inputs. -/
def applyNameFallback (f : BatchFile) (d : Record) : Record :=
  let currentName := pyStrip d.software_name
  let cleanName := remChar '\n' (remChar '\t' (remChar ' ' currentName))
  let isBadName := currentName.isEmpty || decide (currentName.length < 4) ||
    containsSub (str ("著作权人")) cleanName || containsSub (str ("软件名称")) cleanName ||
    containsSub (str ("登记号")) cleanName
  if f.isImage && isBadName then { d with software_name := f.stem } else d

/-- The per-file loop of `batch_extract` (lines 38-85), with text
acquisition abstracted to each file's `ocrResult`.  A raised `OCRError`
or a `ValidationError`/`ParsingError` from `parse_copyright_text`
propagates out of the loop (there is no `try` around the loop body), so it
aborts the whole batch; an empty extracted text or an empty parse result
skips just that file. -/
def batch_extract : List BatchFile → Except (List Char) (List (List Char × Record))
  | [] => Except.ok []
  | f :: fs =>
    match f.ocrResult with
    | Except.error e => Except.error e
    | Except.ok text =>
      if text.isEmpty then batch_extract fs
      else
        match parse_copyright_text text with
        | Except.error e => Except.error e
        | Except.ok ds =>
          if ds.isEmpty then batch_extract fs
          else
            match batch_extract fs with
            | Except.error e => Except.error e
            | Except.ok rest =>
              Except.ok ((ds.map (fun d => (f.name, applyNameFallback f d))) ++ rest)

/-- Whether an `Except` value is a success. -/
def exceptOk : Except (List Char) (List (List Char × Record)) → Bool
  | Except.ok _ => true
  | Except.error _ => false

/-- A label with whitespace gaps inserted between its characters (the
OCR-noise shape `登 记 号`): `spaced l ws` intersperses the gap lists `ws`
between consecutive characters of `l`. -/
def spaced : List Char → List (List Char) → List Char
  | [], _ => []
  | [c], _ => [c]
  | c :: cs, [] => c :: spaced cs []
  | c :: cs, w :: ws => c :: (w ++ spaced cs ws)

/-- Everything of `spaced (c :: cs) ws` after the leading `c`. -/
def spacedTail (cs : List Char) (ws : List (List Char)) : List Char :=
  match cs, ws with
  | [], _ => []
  | _ :: _, [] => spaced cs []
  | _ :: _, w :: ws => w ++ spaced cs ws

/-- Occurrence of the two-character pattern `[a, b]` as a substring. -/
def chain2 (a b : Char) : List Char → Bool
  | x :: y :: rest => (x == a && y == b) || chain2 a b (y :: rest)
  | _ => false

/-- Local whitespace-normality of a character before the rest of a string:
if it is whitespace it is a plain space, and it is not followed by further
whitespace. -/
def wsOk (c : Char) (cs : List Char) : Bool :=
  ((!isPySpace c) || c == ' ') &&
  (match cs.head? with
   | none => true
   | some d => !(isPySpace c && isPySpace d))

/-- Whitespace normal form: every whitespace character is a plain space and
no two whitespace characters are adjacent (the state of a string after
`re.sub(r'\s+', ' ', ...)`). -/
def wsNorm : List Char → Bool
  | [] => true
  | c :: cs => wsOk c cs && wsNorm cs

/-- The normal form reached by `clean_text`: free of noise characters, no
punctuation or whitespace at either end, whitespace-normal, and free of the
four OCR-substitution patterns.  `clean_text` always produces this form and
is the identity on it. -/
def cleanNormal (t : List Char) : Prop :=
  (∀ x ∈ t, x ≠ '|' ∧ x ≠ '，' ∧ x ≠ '。' ∧ x ≠ '"') ∧
  (∀ x, t.head? = some x → isPunctWs x = false) ∧
  (∀ x, t.getLast? = some x → isPunctWs x = false) ∧
  wsNorm t = true ∧
  chain2 '基' '浮' t = false ∧ chain2 '折' '又' t = false ∧
  chain2 '钦' '件' t = false ∧ chain2 '重' '法' t = false

/-! ### General lemmas about the scanning primitives -/

theorem takeWhile_all {p : Char → Bool} : ∀ {l : List Char}, (∀ c ∈ l, p c = true) →
    l.takeWhile p = l := by
  intro l h
  induction l with
  | nil => rfl
  | cons c cs ih =>
    rw [List.takeWhile_cons, if_pos (h c (List.mem_cons_self c cs)),
      ih (fun x hx => h x (List.mem_cons_of_mem c hx))]

theorem dropWhile_all {p : Char → Bool} : ∀ {l : List Char}, (∀ c ∈ l, p c = true) →
    l.dropWhile p = [] := by
  intro l h
  induction l with
  | nil => rfl
  | cons c cs ih =>
    rw [List.dropWhile_cons, if_pos (h c (List.mem_cons_self c cs))]
    exact ih (fun x hx => h x (List.mem_cons_of_mem c hx))

theorem dropWhile_append_all {p : Char → Bool} {w : List Char} (s : List Char)
    (h : ∀ c ∈ w, p c = true) : (w ++ s).dropWhile p = s.dropWhile p := by
  induction w with
  | nil => rfl
  | cons c cs ih =>
    rw [List.cons_append, List.dropWhile_cons, if_pos (h c (List.mem_cons_self c cs))]
    exact ih (fun x hx => h x (List.mem_cons_of_mem c hx))

theorem dropWhile_cons_false {p : Char → Bool} {c : Char} (s : List Char)
    (h : p c = false) : (c :: s).dropWhile p = c :: s := by
  rw [List.dropWhile_cons, if_neg (by simp [h])]

theorem head?_dropWhile_false {p : Char → Bool} : ∀ {l : List Char} {c : Char},
    (l.dropWhile p).head? = some c → p c = false := by
  intro l
  induction l with
  | nil => intro c h; simp [List.dropWhile] at h
  | cons x xs ih =>
    intro c h
    rw [List.dropWhile_cons] at h
    by_cases hx : p x = true
    · exact ih (by rwa [if_pos hx] at h)
    · rw [if_neg hx] at h
      simp only [List.head?_cons, Option.some.injEq] at h
      subst h
      exact Bool.eq_false_iff.mpr hx

theorem dropWhile_eq_self_of_head {p : Char → Bool} {l : List Char} {c : Char}
    (h : l.head? = some c) (hc : p c = false) : l.dropWhile p = l := by
  cases l with
  | nil => rfl
  | cons x xs =>
    simp only [List.head?_cons, Option.some.injEq] at h
    subst h
    exact dropWhile_cons_false xs hc

theorem mem_dropWhile {p : Char → Bool} {l : List Char} {c : Char}
    (h : c ∈ l.dropWhile p) : c ∈ l := by
  have := List.takeWhile_append_dropWhile p l
  rw [← this]
  exact List.mem_append.mpr (Or.inr h)

theorem dropWhileRight_append (p : Char → Bool) (l : List Char) :
    dropWhileRight p l ++ (l.reverse.takeWhile p).reverse = l := by
  unfold dropWhileRight
  rw [← List.reverse_append, List.takeWhile_append_dropWhile, List.reverse_reverse]

theorem mem_dropWhileRight {p : Char → Bool} {l : List Char} {c : Char}
    (h : c ∈ dropWhileRight p l) : c ∈ l := by
  unfold dropWhileRight at h
  rw [List.mem_reverse] at h
  exact List.mem_reverse.mp (mem_dropWhile h)

theorem getLast?_dropWhileRight {p : Char → Bool} {l : List Char} {c : Char}
    (h : (dropWhileRight p l).getLast? = some c) : p c = false := by
  unfold dropWhileRight at h
  rw [List.getLast?_reverse] at h
  exact head?_dropWhile_false h

theorem dropWhileRight_eq_self {p : Char → Bool} {l : List Char} {c : Char}
    (h : l.getLast? = some c) (hc : p c = false) : dropWhileRight p l = l := by
  unfold dropWhileRight
  have hh : l.reverse.head? = some c := by rw [List.head?_reverse]; exact h
  rw [dropWhile_eq_self_of_head hh hc, List.reverse_reverse]

theorem head?_dropWhileRight_ne {p : Char → Bool} {l : List Char}
    (h : dropWhileRight p l ≠ []) : (dropWhileRight p l).head? = l.head? := by
  conv_rhs => rw [← dropWhileRight_append p l]
  exact (List.head?_append_of_ne_nil _ h).symm

theorem pyStrip_eq_self {l : List Char}
    (hh : ∀ c, l.head? = some c → isPySpace c = false)
    (hl : ∀ c, l.getLast? = some c → isPySpace c = false) : pyStrip l = l := by
  unfold pyStrip
  cases l with
  | nil => rfl
  | cons c cs =>
    rw [dropWhile_eq_self_of_head (rfl : (c :: cs).head? = some c) (hh c rfl)]
    cases e : (c :: cs).getLast? with
    | none => simp [List.getLast?_cons] at e
    | some x => exact dropWhileRight_eq_self e (hl x e)

/-! ### C5: the auto-numbering invariant -/

theorem writeRows_map_fst : ∀ (xs : List Cleaned) (n : Nat),
    (writeRows (n + 1) xs).map Prod.fst = List.range' n xs.length := by
  intro xs
  induction xs with
  | nil => intro n; rfl
  | cons x xs ih =>
    intro n
    show (n + 1 - 1, x).1 :: (writeRows (n + 1 + 1) xs).map Prod.fst = List.range' n (xs.length + 1)
    rw [List.range'_succ, ih (n + 1)]
    simp

/-- C5: the display numbers (序号 column) of the records surviving the
discard filter are exactly the contiguous sequence `1..N` in encounter
order, where `N` is the number of surviving records; the OCR serial number
plays no role in them. -/
theorem numbering_invariant (l : List Record) :
    (excelRows l).map Prod.fst = List.range' 1 (cleanedData l).length :=
  writeRows_map_fst (cleanedData l) 1

/-! ### C4: the discard rule -/

theorem mem_writeRows : ∀ {xs : List Cleaned} {k n : Nat} {c : Cleaned},
    (n, c) ∈ writeRows k xs → c ∈ xs := by
  intro xs
  induction xs with
  | nil => intro k n c h; simp [writeRows] at h
  | cons x xs ih =>
    intro k n c h
    rw [writeRows] at h
    rcases List.mem_cons.mp h with h1 | h2
    · exact List.mem_cons.mpr (Or.inl (congrArg Prod.snd h1))
    · exact List.mem_cons.mpr (Or.inr (ih h2))

/-- C4: a record whose cleaned software name, owner and registration number
are all empty never appears among the tabulated rows, whatever its other
fields contain. -/
theorem discard_rule (l : List Record) (n : Nat) (c : Cleaned)
    (hmem : (n, c) ∈ excelRows l) :
    ¬(c.software_name = [] ∧ c.owner = [] ∧ c.registration_number = []) := by
  intro ⟨h1, h2, h3⟩
  have hc : c ∈ cleanedData l := mem_writeRows hmem
  have hk : keepRecord c = true := (List.mem_filter.mp hc).2
  simp [keepRecord, h1, h2, h3] at hk

/-- Witness for C4 at a concrete batch: a surviving record is in the rows
and therefore has a non-empty key field. -/
theorem discard_rule_witness :
    (1, validate_and_clean_data ⟨[], str ("测试公司"), [], [], [], [], []⟩) ∈
      excelRows [⟨[], str ("测试公司"), [], [], [], [], []⟩] ∧
    ¬((validate_and_clean_data ⟨[], str ("测试公司"), [], [], [], [], []⟩).software_name = [] ∧
      (validate_and_clean_data ⟨[], str ("测试公司"), [], [], [], [], []⟩).owner = [] ∧
      (validate_and_clean_data ⟨[], str ("测试公司"), [], [], [], [], []⟩).registration_number = []) :=
  ⟨by decide, discard_rule [⟨[], str ("测试公司"), [], [], [], [], []⟩] 1 _ (by decide)⟩

/-! ### C9: cleaning of the registration number -/

/-- C9 counterexample: the OCR substitution table IS applied to the
registration number (`clean_text` is used uniformly), so a raw value
containing `基浮` is rewritten, contrary to the claim that only steps 1-3
apply. -/
theorem reg_cleaning_counterexample :
    (validate_and_clean_data ⟨[], [], [], [], [], [], str ("2021SR基浮")⟩).registration_number ≠
      clean_text_steps123 (str ("2021SR基浮")) ∧
    (validate_and_clean_data ⟨[], [], [], [], [], [], str ("2021SR基浮")⟩).registration_number =
      str ("2021SR悬浮") := by
  constructor
  · decide
  · decide

/-- C9 (amended): the cleaned registration number is exactly `clean_text`
of the raw value — noise removal, punctuation stripping, whitespace
collapsing AND the OCR substitution table — and it is kept unchanged
whether or not it matches `^\d{4}SR\d+$`. -/
theorem reg_cleaning (r : Record) :
    (validate_and_clean_data r).registration_number = clean_text r.registration_number := by
  show (if _ then clean_text r.registration_number else clean_text r.registration_number) = _
  exact ite_self _

/-! ### C3: page splitting -/

theorem splitGo_ne_nil : ∀ (fuel : Nat) (acc s : List Char), splitGo fuel acc s ≠ [] := by
  intro fuel
  induction fuel with
  | zero => intro acc s; cases s <;> simp [splitGo]
  | succ fuel ih =>
    intro acc s
    cases s with
    | nil => simp [splitGo]
    | cons c cs =>
      rw [splitGo]
      cases matchPageDelim (c :: cs) with
      | some rest => simp
      | none => exact ih (c :: acc) cs

theorem splitGo_singleton : ∀ (fuel : Nat) (acc s p : List Char),
    splitGo fuel acc s = [p] → p = acc.reverse ++ s := by
  intro fuel
  induction fuel with
  | zero =>
    intro acc s p h
    cases s with
    | nil => simp [splitGo] at h; simp [h]
    | cons c cs => simp [splitGo] at h; simp [h]
  | succ fuel ih =>
    intro acc s p h
    cases s with
    | nil => simp [splitGo] at h; simp [h]
    | cons c cs =>
      rw [splitGo] at h
      cases e : matchPageDelim (c :: cs) with
      | some rest =>
        rw [e] at h
        have := splitGo_ne_nil fuel [] rest
        simp only [List.cons.injEq] at h
        exact absurd h.2 this
      | none =>
        rw [e] at h
        have := ih (c :: acc) cs p h
        simpa [List.append_assoc] using this

/-- C3 counterexample: with one well-formed delimiter preceded by non-blank
text, the split yields 2 processed segments, not 1; and with no delimiter
the single produced segment is the whole input, not its trimmed form. -/
theorem page_split_counterexample :
    (splitPages (str ("X--- Page 1 ---Y")) = [str ("X"), str ("Y")] ∧
     pyStrip (str ("Y")) ≠ [] ∧
     (nonWsPages (str ("X--- Page 1 ---Y"))).length = 2) ∧
    (splitPages (str (" x")) = [str (" x")] ∧
     nonWsPages (str (" x")) = [str (" x")] ∧
     str (" x") ≠ pyStrip (str (" x"))) := by
  constructor
  · exact ⟨by decide, by decide, by decide⟩
  · exact ⟨by decide, by decide, by decide⟩

/-- C3 (amended): if an input splits into a leading segment `p0` followed by
the `k` segments introduced by its `k` delimiters, each delimiter being
followed by non-blank page text, then (i) when the text before the first
delimiter is blank, exactly those `k` segments are processed, and (ii) when
there is no delimiter at all and the input is not blank, exactly one
segment is processed and it is the whole untrimmed input. -/
theorem page_split_coverage (text p0 : List Char) (rest : List (List Char))
    (hsplit : splitPages text = p0 :: rest)
    (hpages : ∀ p ∈ rest, pyStrip p ≠ []) :
    (pyStrip p0 = [] → nonWsPages text = rest ∧ rest.length = (splitPages text).length - 1) ∧
    (rest = [] → pyStrip text ≠ [] → nonWsPages text = [text]) := by
  constructor
  · intro h0
    have hfilter : nonWsPages text = rest := by
      unfold nonWsPages
      rw [hsplit, List.filter_cons, if_neg (by simp [h0])]
      exact List.filter_eq_self.mpr (fun p hp => by simp [hpages p hp])
    exact ⟨hfilter, by rw [hsplit]; simp⟩
  · intro hrest h0
    subst hrest
    have hp0 : p0 = text := by
      have := splitGo_singleton text.length [] text p0 hsplit
      simpa using this
    subst hp0
    unfold nonWsPages
    rw [hsplit, List.filter_cons, if_pos (by simp [h0])]
    rfl

/-- Witness for C3 at concrete inputs: a two-delimiter input with a blank
preamble yields exactly its 2 page segments, and a delimiter-free input
yields itself as the single segment. -/
theorem page_split_coverage_witness :
    (splitPages (str ("--- Page 1 ---A--- Page 2 ---B")) = [[], str ("A"), str ("B")] ∧
     (∀ p ∈ [str ("A"), str ("B")], pyStrip p ≠ []) ∧
     nonWsPages (str ("--- Page 1 ---A--- Page 2 ---B")) = [str ("A"), str ("B")]) ∧
    (splitPages (str ("certificate body")) = [str ("certificate body")] ∧
     nonWsPages (str ("certificate body")) = [str ("certificate body")]) :=
  ⟨⟨by decide, by decide,
    ((page_split_coverage (str ("--- Page 1 ---A--- Page 2 ---B")) [] [str ("A"), str ("B")]
      (by decide) (by decide)).1 (by decide)).1⟩,
   ⟨by decide,
    (page_split_coverage (str ("certificate body")) (str ("certificate body")) []
      (by decide) (by decide)).2 rfl (by decide)⟩⟩

/-! ### C7 and C10: `parse_copyright_text` error conditions and fallback -/

theorem page_results_nil (text : List Char)
    (h1 : ∀ p ∈ nonWsPages text, anyKeyField (parse_single_block p) = false) :
    ((nonWsPages text).map parse_single_block).filter anyKeyField = [] := by
  rw [List.filter_eq_nil_iff]
  intro a ha
  rcases List.mem_map.mp ha with ⟨p, hp, rfl⟩
  simp [h1 p hp]

/-- C7 (amended): `parse_copyright_text` reports a `ValidationError` when
the input is empty or whitespace-only, and when additionally to no page
yielding a key field the whole-text fallback block also yields none.
(When the fallback block does find a key field, no error is raised even
though no page yielded one — see the counterexample.) -/
theorem validation_error_conditions (text : List Char) :
    (pyStrip text = [] →
      parse_copyright_text text = Except.error (str ("Empty text provided for parsing"))) ∧
    (pyStrip text ≠ [] →
      (∀ p ∈ nonWsPages text, anyKeyField (parse_single_block p) = false) →
      anyKeyField (parse_single_block text) = false →
      parse_copyright_text text =
        Except.error (str ("No valid certificate data extracted from text"))) := by
  constructor
  · intro h
    simp [parse_copyright_text, h]
  · intro h0 h1 h2
    have hne : (pyStrip text).isEmpty = false := by simp [h0]
    simp [parse_copyright_text, hne, page_results_nil text h1, h2]

/-- Witness for C7 on the spec's own example input: random text with no
certificate fields makes `parse_copyright_text` report the
no-valid-data `ValidationError`. -/
theorem validation_error_conditions_witness :
    pyStrip (str ("Some random text without certificate fields")) ≠ [] ∧
    (∀ p ∈ nonWsPages (str ("Some random text without certificate fields")),
      anyKeyField (parse_single_block p) = false) ∧
    anyKeyField (parse_single_block (str ("Some random text without certificate fields"))) = false ∧
    parse_copyright_text (str ("Some random text without certificate fields")) =
      Except.error (str ("No valid certificate data extracted from text")) :=
  ⟨by decide, by decide, by decide,
   (validation_error_conditions (str ("Some random text without certificate fields"))).2
     (by decide) (by decide) (by decide)⟩

/-- C7 counterexample: an input on which every delimited page yields no key
field, yet `parse_copyright_text` returns a record instead of raising: the
whole-text fallback block extracts an owner value spanning the page
delimiter. -/
theorem validation_error_counterexample :
    (∀ p ∈ nonWsPages (str ("著作权人\n--- Page 1 ---\nX")),
      anyKeyField (parse_single_block p) = false) ∧
    pyStrip (str ("著作权人\n--- Page 1 ---\nX")) ≠ [] ∧
    parse_copyright_text (str ("著作权人\n--- Page 1 ---\nX")) =
      Except.ok [parse_single_block (str ("著作权人\n--- Page 1 ---\nX"))] ∧
    (parse_single_block (str ("著作权人\n--- Page 1 ---\nX"))).owner = str ("-- Page 1 ---") := by
  refine ⟨by decide, by decide, rfl, by decide⟩

/-- C10: when the input contains page delimiters, every processed page
parses to a record with all four key fields empty, and the single-block
parse of the entire untrimmed input has at least one key field, then
`parse_copyright_text` returns exactly that whole-text record. -/
theorem whole_text_fallback (text : List Char)
    (h0 : pyStrip text ≠ [])
    (_hdelim : 2 ≤ (splitPages text).length)
    (h1 : ∀ p ∈ nonWsPages text, anyKeyField (parse_single_block p) = false)
    (h2 : anyKeyField (parse_single_block text) = true) :
    parse_copyright_text text = Except.ok [parse_single_block text] := by
  have hne : (pyStrip text).isEmpty = false := by simp [h0]
  simp [parse_copyright_text, hne, page_results_nil text h1, h2]

/-- Witness for C10 at a concrete delimited input whose pages are fieldless
but whose whole text parses to an owner value. -/
theorem whole_text_fallback_witness :
    pyStrip (str ("著作权人\n--- Page 1 ---\nXY")) ≠ [] ∧
    2 ≤ (splitPages (str ("著作权人\n--- Page 1 ---\nXY"))).length ∧
    (∀ p ∈ nonWsPages (str ("著作权人\n--- Page 1 ---\nXY")),
      anyKeyField (parse_single_block p) = false) ∧
    anyKeyField (parse_single_block (str ("著作权人\n--- Page 1 ---\nXY"))) = true ∧
    parse_copyright_text (str ("著作权人\n--- Page 1 ---\nXY")) =
      Except.ok [parse_single_block (str ("著作权人\n--- Page 1 ---\nXY"))] :=
  ⟨by decide, by decide, by decide, by decide,
   whole_text_fallback (str ("著作权人\n--- Page 1 ---\nXY"))
     (by decide) (by decide) (by decide) (by decide)⟩

/-! ### C1: batch failure isolation -/

/-- C1: `batch_extract` does NOT isolate per-file failures.  A first file
whose text parses to no certificate fields makes `parse_copyright_text`
raise `ValidationError`, which propagates and aborts the whole batch (the
loop body has no `try`); likewise an `OCRError` raised by `extract_text`.
The same second file alone is processed successfully, showing the batch
abort loses it. -/
theorem batch_abort_on_single_failure :
    batch_extract
      [⟨str ("bad.png"), str ("bad"), true, Except.ok (str ("garbage text only"))⟩,
       ⟨str ("good.png"), str ("good"), true, Except.ok (str ("登记号: 2021SR0000001"))⟩] =
      Except.error (str ("No valid certificate data extracted from text")) ∧
    batch_extract
      [⟨str ("scan.png"), str ("scan"), true, Except.error (str ("Tesseract OCR failed"))⟩,
       ⟨str ("good.png"), str ("good"), true, Except.ok (str ("登记号: 2021SR0000001"))⟩] =
      Except.error (str ("Tesseract OCR failed")) ∧
    exceptOk (batch_extract
      [⟨str ("good.png"), str ("good"), true, Except.ok (str ("登记号: 2021SR0000001"))⟩]) = true :=
  ⟨rfl, rfl, rfl⟩

/-! ### C2: label-spacing tolerance -/

theorem spaced_cons (c : Char) (cs : List Char) (ws : List (List Char)) :
    spaced (c :: cs) ws = c :: spacedTail cs ws := by
  cases cs <;> cases ws <;> rfl

theorem mem_spaced : ∀ {l : List Char} {ws : List (List Char)} {x : Char},
    x ∈ spaced l ws → x ∈ l ∨ ∃ w ∈ ws, x ∈ w := by
  intro l
  induction l with
  | nil => intro ws x h; simp [spaced] at h
  | cons c cs ih =>
    intro ws x h
    cases cs with
    | nil =>
      cases ws with
      | nil => simp [spaced] at h; simp [h]
      | cons w ws' => simp [spaced] at h; simp [h]
    | cons c' cs' =>
      cases ws with
      | nil =>
        simp only [spaced] at h
        rcases List.mem_cons.mp h with rfl | h'
        · exact Or.inl (List.mem_cons_self _ _)
        · rcases ih h' with h'' | ⟨w, hw, _⟩
          · exact Or.inl (List.mem_cons_of_mem _ h'')
          · exact absurd hw (List.not_mem_nil w)
      | cons w ws' =>
        simp only [spaced] at h
        rcases List.mem_cons.mp h with rfl | h'
        · exact Or.inl (List.mem_cons_self _ _)
        · rcases List.mem_append.mp h' with h'' | h''
          · exact Or.inr ⟨w, List.mem_cons_self _ _, h''⟩
          · rcases ih h'' with h3 | ⟨w', hw', hx⟩
            · exact Or.inl (List.mem_cons_of_mem _ h3)
            · exact Or.inr ⟨w', List.mem_cons_of_mem w hw', hx⟩

theorem mem_spacedTail : ∀ {cs : List Char} {ws : List (List Char)} {x : Char},
    x ∈ spacedTail cs ws → x ∈ cs ∨ ∃ w ∈ ws, x ∈ w := by
  intro cs ws x h
  cases cs with
  | nil => simp [spacedTail] at h
  | cons c' cs' =>
    cases ws with
    | nil =>
      simp only [spacedTail] at h
      rcases mem_spaced h with h' | ⟨w, hw, _⟩
      · exact Or.inl h'
      · exact absurd hw (List.not_mem_nil w)
    | cons w ws' =>
      simp only [spacedTail] at h
      rcases List.mem_append.mp h with h' | h'
      · exact Or.inr ⟨w, List.mem_cons_self _ _, h'⟩
      · rcases mem_spaced h' with h'' | ⟨w', hw', hx⟩
        · exact Or.inl h''
        · exact Or.inr ⟨w', List.mem_cons_of_mem w hw', hx⟩

theorem skipWs_cons_false {c : Char} (s : List Char) (h : isPySpace c = false) :
    skipWs (c :: s) = c :: s := dropWhile_cons_false s h

theorem skipWs_append_all {w : List Char} (s : List Char)
    (h : ∀ c ∈ w, isPySpace c = true) : skipWs (w ++ s) = skipWs s :=
  dropWhile_append_all s h

theorem skipWs_spaced_head (c' : Char) (cs' : List Char) (zs : List (List Char))
    (rest : List Char) (hc' : isPySpace c' = false) :
    skipWs (spaced (c' :: cs') zs ++ rest) = spaced (c' :: cs') zs ++ rest := by
  rw [spaced_cons, List.cons_append]
  exact skipWs_cons_false _ hc'

theorem matchLabel_cons_cons (c c' : Char) (cs' s : List Char) :
    matchLabel (c :: c' :: cs') (c :: s) = matchLabel (c' :: cs') (skipWs s) := by
  simp [matchLabel]

theorem matchLabel_spaced : ∀ (l : List Char) (ws : List (List Char)) (rest : List Char),
    (∀ c ∈ l, isPySpace c = false) →
    (∀ w ∈ ws, ∀ c ∈ w, isPySpace c = true) →
    matchLabel l (spaced l ws ++ rest) = matchLabel l (l ++ rest) := by
  intro l
  induction l with
  | nil => intro ws rest _ _; rfl
  | cons c cs ih =>
    intro ws rest hl hws
    cases cs with
    | nil =>
      have : spaced [c] ws = [c] := by cases ws <;> rfl
      rw [this]
    | cons c' cs' =>
      have hc' : isPySpace c' = false := hl c' (List.mem_cons_of_mem c (List.mem_cons_self c' cs'))
      have htail : ∀ x ∈ c' :: cs', isPySpace x = false :=
        fun x hx => hl x (List.mem_cons_of_mem c hx)
      cases ws with
      | nil =>
        rw [spaced_cons,
          show spacedTail (c' :: cs') ([] : List (List Char)) = spaced (c' :: cs') [] from rfl]
        simp only [List.cons_append]
        rw [matchLabel_cons_cons, matchLabel_cons_cons,
          skipWs_spaced_head c' cs' [] rest hc',
          ih [] rest htail (by simp),
          skipWs_cons_false _ hc']
        simp only [List.cons_append]
      | cons w ws' =>
        rw [spaced_cons,
          show spacedTail (c' :: cs') (w :: ws') = w ++ spaced (c' :: cs') ws' from rfl]
        simp only [List.cons_append, List.append_assoc]
        rw [matchLabel_cons_cons, matchLabel_cons_cons,
          skipWs_append_all _ (hws w (List.mem_cons_self w ws')),
          skipWs_spaced_head c' cs' ws' rest hc',
          ih ws' rest htail (fun z hz => hws z (List.mem_cons_of_mem w hz)),
          skipWs_cons_false _ hc']
        simp only [List.cons_append]

theorem searchWith_append_none (f : List Char → Option (List Char)) :
    ∀ (u rest : List Char), (∀ x (s : List Char), x ∈ u → f (x :: s) = none) →
    searchWith f (u ++ rest) = searchWith f rest := by
  intro u
  induction u with
  | nil => intro rest _; rfl
  | cons x u' ih =>
    intro rest h
    rw [List.cons_append]
    show (match f (x :: (u' ++ rest)) with
      | some v => some v | none => searchWith f (u' ++ rest)) = searchWith f rest
    rw [h x (u' ++ rest) (List.mem_cons_self x u')]
    exact ih rest (fun y s hy => h y s (List.mem_cons_of_mem x hy))

theorem labelTry_cons_ne (c0 : Char) (ltail : List Char)
    (tailF : List Char → Option (List Char)) {x : Char} (s : List Char)
    (hx : x ≠ c0) : (matchLabel (c0 :: ltail) (x :: s)).bind tailF = none := by
  cases ltail <;> simp [matchLabel, hx]

theorem searchWith_of_hit (f : List Char → Option (List Char)) (s v : List Char)
    (h : f s = some v) : searchWith f s = some v := by
  cases s with
  | nil => simpa [searchWith] using h
  | cons c cs =>
    show (match f (c :: cs) with | some v => some v | none => searchWith f cs) = some v
    rw [h]

theorem labelSearch_spacing (c0 : Char) (ltail : List Char)
    (tailF : List Char → Option (List Char)) (ws : List (List Char)) (rest : List Char)
    (h0 : isPySpace c0 = false)
    (h1 : ∀ c ∈ ltail, isPySpace c = false)
    (h2 : ∀ c ∈ ltail, c ≠ c0)
    (hws : ∀ w ∈ ws, ∀ c ∈ w, isPySpace c = true) :
    labelSearch (c0 :: ltail) tailF (spaced (c0 :: ltail) ws ++ rest) =
      labelSearch (c0 :: ltail) tailF ((c0 :: ltail) ++ rest) := by
  have hml := matchLabel_spaced (c0 :: ltail) ws rest
    (by
      intro c hc
      rcases List.mem_cons.mp hc with rfl | hc
      · exact h0
      · exact h1 c hc) hws
  have htail_ne : ∀ x ∈ spacedTail ltail ws, x ≠ c0 := by
    intro x hx
    rcases mem_spacedTail hx with h | ⟨w, hw, hxw⟩
    · exact h2 x h
    · intro e
      subst e
      rw [hws w hw x hxw] at h0
      exact Bool.noConfusion h0
  unfold labelSearch
  rw [spaced_cons] at hml ⊢
  rw [List.cons_append] at hml ⊢
  rw [List.cons_append] at hml
  show (match (matchLabel (c0 :: ltail) (c0 :: (spacedTail ltail ws ++ rest))).bind tailF with
    | some v => some v
    | none => searchWith _ (spacedTail ltail ws ++ rest)) = _
  show _ = (match (matchLabel (c0 :: ltail) (c0 :: (ltail ++ rest))).bind tailF with
    | some v => some v
    | none => searchWith _ (ltail ++ rest))
  rw [hml]
  cases e : (matchLabel (c0 :: ltail) (c0 :: (ltail ++ rest))).bind tailF with
  | some v => rfl
  | none =>
    rw [searchWith_append_none _ (spacedTail ltail ws) rest
        (fun x s hx => labelTry_cons_ne c0 ltail tailF s (htail_ne x hx)),
      searchWith_append_none _ ltail rest
        (fun x s hx => labelTry_cons_ne c0 ltail tailF s (h2 x hx))]

/-- C2 counterexample: the 首次发表日期 label is matched verbatim, so
inserting one space between each of its characters loses the extracted
publication date, contradicting the claim for that field (and likewise
权利取得方式). -/
theorem label_spacing_counterexample :
    spaced (str ("首次发表日期")) [[' '], [' '], [' '], [' '], [' ']] = str ("首 次 发 表 日 期") ∧
    (parse_single_block (str ("首 次 发 表 日 期:2021年12月1日"))).publication_date = [] ∧
    (parse_single_block (str ("首次发表日期:2021年12月1日"))).publication_date =
      str ("2021年12月1日") := by
  refine ⟨by decide, by decide, by decide⟩

/-- C2 (amended): inserting 0-3 whitespace characters between the label
characters leaves the extracted value unchanged for the four labels whose
patterns interleave `\s*` — 登记号, 著作权人, 软件名称, 权利范围 — for any
following text; the labels 首次发表日期 and 权利取得方式 (and the literal
`No.`) are matched verbatim, so the tolerance does not hold for them. -/
theorem label_spacing_tolerance (w1 w2 w3 : List Char) (rest : List Char)
    (hw1 : ∀ c ∈ w1, isPySpace c = true) (hw2 : ∀ c ∈ w2, isPySpace c = true)
    (hw3 : ∀ c ∈ w3, isPySpace c = true)
    (_hl1 : w1.length ≤ 3) (_hl2 : w2.length ≤ 3) (_hl3 : w3.length ≤ 3) :
    reg_search (spaced (str ("登记号")) [w1, w2] ++ rest) =
      reg_search (str ("登记号") ++ rest) ∧
    owner_search (spaced (str ("著作权人")) [w1, w2, w3] ++ rest) =
      owner_search (str ("著作权人") ++ rest) ∧
    name_search (spaced (str ("软件名称")) [w1, w2, w3] ++ rest) =
      name_search (str ("软件名称") ++ rest) ∧
    scope_search (spaced (str ("权利范围")) [w1, w2, w3] ++ rest) =
      scope_search (str ("权利范围") ++ rest) := by
  have hws2 : ∀ w ∈ [w1, w2], ∀ c ∈ w, isPySpace c = true :=
    List.forall_mem_cons.mpr ⟨hw1, List.forall_mem_cons.mpr ⟨hw2, by simp⟩⟩
  have hws3 : ∀ w ∈ [w1, w2, w3], ∀ c ∈ w, isPySpace c = true :=
    List.forall_mem_cons.mpr ⟨hw1, List.forall_mem_cons.mpr ⟨hw2,
      List.forall_mem_cons.mpr ⟨hw3, by simp⟩⟩⟩
  refine ⟨?_, ?_, ?_, ?_⟩
  · exact labelSearch_spacing '登' ['记', '号'] regTail [w1, w2] rest
      (by decide) (by decide) (by decide) hws2
  · exact labelSearch_spacing '著' ['作', '权', '人'] ownerTail [w1, w2, w3] rest
      (by decide) (by decide) (by decide) hws3
  · exact labelSearch_spacing '软' ['件', '名', '称'] nameTail [w1, w2, w3] rest
      (by decide) (by decide) (by decide) hws3
  · exact labelSearch_spacing '权' ['利', '范', '围'] lineTail [w1, w2, w3] rest
      (by decide) (by decide) (by decide) hws3

/-- Witness for C2 at single-space gaps and the spec's example value. -/
theorem label_spacing_tolerance_witness :
    (∀ c ∈ [' '], isPySpace c = true) ∧ [' '].length ≤ 3 ∧
    reg_search (spaced (str ("登记号")) [[' '], [' ']] ++ str (":2021SR0123456")) =
      reg_search (str ("登记号") ++ str (":2021SR0123456")) ∧
    reg_search (str ("登 记 号:2021SR0123456")) = some (str ("2021SR0123456")) ∧
    reg_search (str ("登记号:2021SR0123456")) = some (str ("2021SR0123456")) :=
  ⟨by decide, by decide,
   (label_spacing_tolerance [' '] [' '] [' '] (str (":2021SR0123456"))
     (by decide) (by decide) (by decide) (by decide) (by decide) (by decide)).1,
   by decide, by decide⟩

/-! ### C8: separator tolerance -/

theorem matchLit_self : ∀ (l rest : List Char), matchLit l (l ++ rest) = some rest := by
  intro l
  induction l with
  | nil => intro rest; rfl
  | cons c cs ih => intro rest; simp [List.cons_append, matchLit, ih]

theorem matchLabel_self : ∀ (l rest : List Char), (∀ c ∈ l, isPySpace c = false) →
    matchLabel l (l ++ rest) = some rest := by
  intro l
  induction l with
  | nil => intro rest _; rfl
  | cons c cs ih =>
    intro rest h
    cases cs with
    | nil => simp [matchLabel]
    | cons c' cs' =>
      have hc' : isPySpace c' = false := h c' (List.mem_cons_of_mem c (List.mem_cons_self c' cs'))
      simp only [List.cons_append]
      rw [matchLabel_cons_cons, skipWs_cons_false _ hc', ← List.cons_append]
      exact ih rest (fun x hx => h x (List.mem_cons_of_mem c hx))

theorem takeWhile_no_nl {v : List Char} (hnl : ∀ c ∈ v, c ≠ '\n') :
    v.takeWhile (fun x => !(x == '\n')) = v :=
  takeWhile_all (fun c hc => by simp [hnl c hc])

theorem dropWhile_no_nl {v : List Char} (hnl : ∀ c ∈ v, c ≠ '\n') :
    v.dropWhile (fun x => !(x == '\n')) = [] :=
  dropWhile_all (fun c hc => by simp [hnl c hc])

theorem tailCap_sep (seps : List Char) (w1 w2 v : List Char) (sep : Char)
    (hw1 : ∀ c ∈ w1, isPySpace c = true) (hw2 : ∀ c ∈ w2, isPySpace c = true)
    (hsep : isPySpace sep = false) (hmem : sep ∈ seps)
    (hv : v ≠ []) (hnl : ∀ c ∈ v, c ≠ '\n')
    (hhead : ∀ c, v.head? = some c → isPySpace c = false) :
    tailCap seps (w1 ++ sep :: (w2 ++ v)) = some (v, []) := by
  have h1 : skipWs (w1 ++ sep :: (w2 ++ v)) = sep :: (w2 ++ v) := by
    rw [skipWs_append_all _ hw1]
    exact skipWs_cons_false _ hsep
  have h2 : skipWs (w2 ++ v) = v := by
    rw [skipWs_append_all _ hw2]
    cases v with
    | nil => exact absurd rfl hv
    | cons d ds => exact skipWs_cons_false _ (hhead d rfl)
  cases v with
  | nil => exact absurd rfl hv
  | cons d ds =>
    unfold tailCap
    rw [h1]
    simp only [if_pos hmem]
    rw [h2]
    simp only [takeWhile_no_nl hnl, dropWhile_no_nl hnl]

theorem tailCap_nosep (seps : List Char) (w1 v : List Char)
    (hw1 : ∀ c ∈ w1, isPySpace c = true)
    (hv : v ≠ []) (hnl : ∀ c ∈ v, c ≠ '\n')
    (hhead : ∀ c, v.head? = some c → (isPySpace c = false ∧ c ∉ seps)) :
    tailCap seps (w1 ++ v) = some (v, []) := by
  cases v with
  | nil => exact absurd rfl hv
  | cons d ds =>
    have h1 : skipWs (w1 ++ d :: ds) = d :: ds := by
      rw [skipWs_append_all _ hw1]
      exact skipWs_cons_false _ (hhead d rfl).1
    unfold tailCap
    rw [h1]
    simp only [if_neg (hhead d rfl).2]
    simp only [takeWhile_no_nl hnl, dropWhile_no_nl hnl]

theorem regValue_eval (d1 d2 d3 d4 : Char) (ds : List Char)
    (h1 : d1.isDigit = true) (h2 : d2.isDigit = true) (h3 : d3.isDigit = true)
    (h4 : d4.isDigit = true) (hds : ds ≠ []) (hall : ∀ c ∈ ds, c.isDigit = true) :
    regValue (d1 :: d2 :: d3 :: d4 :: 'S' :: 'R' :: ds) =
      some (d1 :: d2 :: d3 :: d4 :: 'S' :: 'R' :: ds) := by
  simp only [regValue, h1, h2, h3, h4, Bool.and_self, if_true, takeWhile_all hall]
  simp [List.isEmpty_iff, hds]

theorem regTail_sep (w1 w2 v : List Char) (sep : Char)
    (hw1 : ∀ c ∈ w1, isPySpace c = true) (hw2 : ∀ c ∈ w2, isPySpace c = true)
    (hsep : isPySpace sep = false)
    (hb : (sep == ':' || sep == '：' || sep == ';') = true)
    (hv : v ≠ []) (hhead : ∀ c, v.head? = some c → isPySpace c = false) :
    regTail (w1 ++ sep :: (w2 ++ v)) = regValue v := by
  have h1 : skipWs (w1 ++ sep :: (w2 ++ v)) = sep :: (w2 ++ v) := by
    rw [skipWs_append_all _ hw1]
    exact skipWs_cons_false _ hsep
  have h2 : skipWs (w2 ++ v) = v := by
    rw [skipWs_append_all _ hw2]
    cases v with
    | nil => exact absurd rfl hv
    | cons d ds => exact skipWs_cons_false _ (hhead d rfl)
  unfold regTail
  rw [h1]
  simp [hb, h2]

theorem regTail_nosep (w1 v : List Char)
    (hw1 : ∀ c ∈ w1, isPySpace c = true)
    (hv : v ≠ [])
    (hhead : ∀ c, v.head? = some c →
      (isPySpace c = false ∧ (c == ':' || c == '：' || c == ';') = false)) :
    regTail (w1 ++ v) = regValue v := by
  cases v with
  | nil => exact absurd rfl hv
  | cons d ds =>
    have h1 : skipWs (w1 ++ d :: ds) = d :: ds := by
      rw [skipWs_append_all _ hw1]
      exact skipWs_cons_false _ (hhead d rfl).1
    unfold regTail
    rw [h1]
    simp [(hhead d rfl).2]

theorem dateTail_sep (w1 w2 v : List Char) (sep : Char)
    (hw1 : ∀ c ∈ w1, isPySpace c = true) (hw2 : ∀ c ∈ w2, isPySpace c = true)
    (hsep : isPySpace sep = false)
    (hb : (sep == ':' || sep == '：' || sep == ';' || sep == ',') = true)
    (hv : v ≠ []) (hhead : ∀ c, v.head? = some c → isPySpace c = false) :
    dateTail (w1 ++ sep :: (w2 ++ v)) = dateValue v := by
  have h1 : skipWs (w1 ++ sep :: (w2 ++ v)) = sep :: (w2 ++ v) := by
    rw [skipWs_append_all _ hw1]
    exact skipWs_cons_false _ hsep
  have h2 : skipWs (w2 ++ v) = v := by
    rw [skipWs_append_all _ hw2]
    cases v with
    | nil => exact absurd rfl hv
    | cons d ds => exact skipWs_cons_false _ (hhead d rfl)
  unfold dateTail
  rw [h1]
  simp [hb, h2]

theorem dateTail_nosep (w1 v : List Char)
    (hw1 : ∀ c ∈ w1, isPySpace c = true)
    (hv : v ≠ [])
    (hhead : ∀ c, v.head? = some c →
      (isPySpace c = false ∧ (c == ':' || c == '：' || c == ';' || c == ',') = false)) :
    dateTail (w1 ++ v) = dateValue v := by
  cases v with
  | nil => exact absurd rfl hv
  | cons d ds =>
    have h1 : skipWs (w1 ++ d :: ds) = d :: ds := by
      rw [skipWs_append_all _ hw1]
      exact skipWs_cons_false _ (hhead d rfl).1
    unfold dateTail
    rw [h1]
    simp [(hhead d rfl).2]

theorem labelSearch_hit (l : List Char) (tailF : List Char → Option (List Char))
    (t v : List Char) (hl : ∀ c ∈ l, isPySpace c = false) (h : tailF t = some v) :
    labelSearch l tailF (l ++ t) = some v := by
  unfold labelSearch
  exact searchWith_of_hit _ _ _ (by rw [matchLabel_self l t hl]; exact h)

theorem litSearch_hit (l : List Char) (tailF : List Char → Option (List Char))
    (t v : List Char) (h : tailF t = some v) :
    litSearch l tailF (l ++ t) = some v := by
  unfold litSearch
  exact searchWith_of_hit _ _ _ (by rw [matchLit_self l t]; exact h)

theorem ownerTail_of_cap {s v : List Char}
    (h : tailCap [':', '：', ';', ','] s = some (v, [])) :
    ownerTail s = some (subLeadOwnerPunct (pyStrip v)) := by
  unfold ownerTail
  rw [h]

theorem lineTail_of_cap {s v : List Char}
    (h : tailCap [':', '：', ';', ','] s = some (v, [])) :
    lineTail s = some (pyStrip v) := by
  unfold lineTail
  rw [h]

theorem nameTail_of_cap {s v : List Char}
    (h : tailCap [':', '：', ';', ','] s = some (v, [])) :
    nameTail s = some (pyStrip v) := by
  unfold nameTail
  rw [h]
  rfl

/-- C8 counterexample: the comma is NOT tolerated as a separator after
登记号 (its class is only `[:：;]`), and the full-width semicolon `；` is
in no pattern's separator class, so both change the extracted value,
contradicting the claimed full separator set. -/
theorem separator_tolerance_counterexample :
    ((parse_single_block (str ("登记号,2021SR0123456"))).registration_number = [] ∧
     (parse_single_block (str ("登记号:2021SR0123456"))).registration_number =
       str ("2021SR0123456")) ∧
    ((parse_single_block (str ("著作权人；张三"))).owner = str ("；张三") ∧
     (parse_single_block (str ("著作权人:张三"))).owner = str ("张三")) := by
  exact ⟨⟨by decide, by decide⟩, ⟨by decide, by decide⟩⟩

/-- C8 (amended): with optional surrounding whitespace, the separator set
actually tolerated after a label is `{:, ：, ;}` for 登记号 and
`{:, ：, ;, ,}` for 著作权人, 软件名称, 首次发表日期, 权利取得方式 and
权利范围 — not the claimed uniform set: 登记号 does not tolerate the
comma, no pattern tolerates the full-width semicolon `；`, and the `No.`
label takes no separator.  Within a pattern's own class, inserting or
omitting the separator leaves the extracted value unchanged. -/
theorem separator_tolerance (w1 w2 : List Char)
    (hw1 : ∀ c ∈ w1, isPySpace c = true) (hw2 : ∀ c ∈ w2, isPySpace c = true) :
    (∀ sep ∈ [':', '：', ';'], ∀ v u : List Char,
      regValue v = some u →
      (∀ c, v.head? = some c →
        (isPySpace c = false ∧ (c == ':' || c == '：' || c == ';') = false)) →
      reg_search (str ("登记号") ++ (w1 ++ sep :: (w2 ++ v))) = some u ∧
      reg_search (str ("登记号") ++ (w1 ++ v)) = some u) ∧
    (∀ sep ∈ [':', '：', ';', ','], ∀ v : List Char,
      v ≠ [] → (∀ c ∈ v, c ≠ '\n') →
      (∀ c, v.head? = some c → (isPySpace c = false ∧ c ∉ [':', '：', ';', ','])) →
      owner_search (str ("著作权人") ++ (w1 ++ sep :: (w2 ++ v))) =
        some (subLeadOwnerPunct (pyStrip v)) ∧
      owner_search (str ("著作权人") ++ (w1 ++ v)) = some (subLeadOwnerPunct (pyStrip v)) ∧
      name_search (str ("软件名称") ++ (w1 ++ sep :: (w2 ++ v))) = some (pyStrip v) ∧
      name_search (str ("软件名称") ++ (w1 ++ v)) = some (pyStrip v) ∧
      method_search (str ("权利取得方式") ++ (w1 ++ sep :: (w2 ++ v))) = some (pyStrip v) ∧
      method_search (str ("权利取得方式") ++ (w1 ++ v)) = some (pyStrip v) ∧
      scope_search (str ("权利范围") ++ (w1 ++ sep :: (w2 ++ v))) = some (pyStrip v) ∧
      scope_search (str ("权利范围") ++ (w1 ++ v)) = some (pyStrip v)) ∧
    (∀ sep ∈ [':', '：', ';', ','], ∀ v u : List Char,
      dateValue v = some u → v ≠ [] →
      (∀ c, v.head? = some c →
        (isPySpace c = false ∧ (c == ':' || c == '：' || c == ';' || c == ',') = false)) →
      date_search (str ("首次发表日期") ++ (w1 ++ sep :: (w2 ++ v))) = some u ∧
      date_search (str ("首次发表日期") ++ (w1 ++ v)) = some u) := by
  refine ⟨?_, ?_, ?_⟩
  · intro sep hsep v u hv hhead
    have hv' : v ≠ [] := by
      intro e
      subst e
      simp [regValue] at hv
    have hsepws : isPySpace sep = false := by fin_cases hsep <;> decide
    have hb : (sep == ':' || sep == '：' || sep == ';') = true := by fin_cases hsep <;> decide
    constructor
    · show labelSearch (str ("登记号")) regTail _ = some u
      refine labelSearch_hit _ _ _ _ (by decide) ?_
      rw [regTail_sep w1 w2 v sep hw1 hw2 hsepws hb hv' (fun c hc => (hhead c hc).1)]
      exact hv
    · show labelSearch (str ("登记号")) regTail _ = some u
      refine labelSearch_hit _ _ _ _ (by decide) ?_
      rw [regTail_nosep w1 v hw1 hv' hhead]
      exact hv
  · intro sep hsep v hv hnl hhead
    have hsepws : isPySpace sep = false := by fin_cases hsep <;> decide
    have hcap : tailCap [':', '：', ';', ','] (w1 ++ sep :: (w2 ++ v)) = some (v, []) :=
      tailCap_sep _ w1 w2 v sep hw1 hw2 hsepws hsep hv hnl (fun c hc => (hhead c hc).1)
    have hcap' : tailCap [':', '：', ';', ','] (w1 ++ v) = some (v, []) :=
      tailCap_nosep _ w1 v hw1 hv hnl hhead
    refine ⟨?_, ?_, ?_, ?_, ?_, ?_, ?_, ?_⟩
    · show labelSearch (str ("著作权人")) ownerTail _ = _
      exact labelSearch_hit _ _ _ _ (by decide) (ownerTail_of_cap hcap)
    · show labelSearch (str ("著作权人")) ownerTail _ = _
      exact labelSearch_hit _ _ _ _ (by decide) (ownerTail_of_cap hcap')
    · show labelSearch (str ("软件名称")) nameTail _ = _
      exact labelSearch_hit _ _ _ _ (by decide) (nameTail_of_cap hcap)
    · show labelSearch (str ("软件名称")) nameTail _ = _
      exact labelSearch_hit _ _ _ _ (by decide) (nameTail_of_cap hcap')
    · show litSearch (str ("权利取得方式")) lineTail _ = _
      exact litSearch_hit _ _ _ _ (lineTail_of_cap hcap)
    · show litSearch (str ("权利取得方式")) lineTail _ = _
      exact litSearch_hit _ _ _ _ (lineTail_of_cap hcap')
    · show labelSearch (str ("权利范围")) lineTail _ = _
      exact labelSearch_hit _ _ _ _ (by decide) (lineTail_of_cap hcap)
    · show labelSearch (str ("权利范围")) lineTail _ = _
      exact labelSearch_hit _ _ _ _ (by decide) (lineTail_of_cap hcap')
  · intro sep hsep v u hv hv' hhead
    have hsepws : isPySpace sep = false := by fin_cases hsep <;> decide
    have hb : (sep == ':' || sep == '：' || sep == ';' || sep == ',') = true := by
      fin_cases hsep <;> decide
    constructor
    · show litSearch (str ("首次发表日期")) dateTail _ = some u
      refine litSearch_hit _ _ _ _ ?_
      rw [dateTail_sep w1 w2 v sep hw1 hw2 hsepws hb hv' (fun c hc => (hhead c hc).1)]
      exact hv
    · show litSearch (str ("首次发表日期")) dateTail _ = some u
      refine litSearch_hit _ _ _ _ ?_
      rw [dateTail_nosep w1 v hw1 hv' hhead]
      exact hv

/-- Witness for C8 at concrete separators inside the code's classes. -/
theorem separator_tolerance_witness :
    (∀ c ∈ [' '], isPySpace c = true) ∧
    regValue (str ("2021SR007")) = some (str ("2021SR007")) ∧
    reg_search (str ("登记号") ++ ([' '] ++ ';' :: ([] ++ str ("2021SR007")))) =
      some (str ("2021SR007")) ∧
    owner_search (str ("著作权人") ++ ([' '] ++ ',' :: ([] ++ str ("张三")))) =
      some (subLeadOwnerPunct (pyStrip (str ("张三")))) :=
  ⟨by decide, by decide,
   ((separator_tolerance [' '] [] (by decide) (by decide)).1 ';' (by decide)
     (str ("2021SR007")) (str ("2021SR007")) (by decide) (by decide)).1,
   (((separator_tolerance [' '] [] (by decide) (by decide)).2.1 ',' (by decide)
     (str ("张三")) (by decide) (by decide) (by decide))).1⟩

/-! ### C6: idempotence of `clean_text` -/

theorem mem_remChar {ch x : Char} : ∀ {l : List Char}, x ∈ remChar ch l → x ∈ l ∧ x ≠ ch := by
  intro l
  induction l with
  | nil => intro h; simp [remChar] at h
  | cons c cs ih =>
    intro h
    by_cases hc : c = ch
    · rw [remChar, if_pos hc] at h
      exact ⟨List.mem_cons_of_mem c (ih h).1, (ih h).2⟩
    · rw [remChar, if_neg hc] at h
      rcases List.mem_cons.mp h with rfl | h'
      · exact ⟨List.mem_cons_self _ _, hc⟩
      · exact ⟨List.mem_cons_of_mem c (ih h').1, (ih h').2⟩

theorem remChar_eq_self (ch : Char) : ∀ (l : List Char), (∀ x ∈ l, x ≠ ch) →
    remChar ch l = l := by
  intro l
  induction l with
  | nil => intro _; rfl
  | cons c cs ih =>
    intro h
    rw [remChar, if_neg (h c (List.mem_cons_self c cs)),
      ih (fun x hx => h x (List.mem_cons_of_mem c hx))]

theorem mem_remPair {a b x : Char} : ∀ (l : List Char), x ∈ remPair a b l → x ∈ l
  | [], h => by simp [remPair] at h
  | [c], h => by simpa [remPair] using h
  | c :: d :: r, h => by
    by_cases hg : c = a ∧ d = b
    · rw [remPair, if_pos hg] at h
      exact List.mem_cons_of_mem c (List.mem_cons_of_mem d (mem_remPair r h))
    · rw [remPair, if_neg hg] at h
      rcases List.mem_cons.mp h with rfl | h'
      · exact List.mem_cons_self _ _
      · exact List.mem_cons_of_mem c (mem_remPair (d :: r) h')

theorem remPair_eq_self {a b : Char} : ∀ (l : List Char), (∀ x ∈ l, x ≠ a) →
    remPair a b l = l
  | [], _ => rfl
  | [_], _ => rfl
  | c :: d :: r, h => by
    rw [remPair, if_neg (fun hg => h c (List.mem_cons_self c (d :: r)) hg.1),
      remPair_eq_self (d :: r) (fun x hx => h x (List.mem_cons_of_mem c hx))]

theorem mem_collapseGo {x : Char} : ∀ {l : List Char} {b : Bool},
    x ∈ collapseGo b l → x ∈ l ∨ x = ' ' := by
  intro l
  induction l with
  | nil => intro b h; simp [collapseGo] at h
  | cons c cs ih =>
    intro b h
    by_cases hc : isPySpace c = true
    · rw [collapseGo, if_pos hc] at h
      by_cases hb : b = true
      · subst hb
        rw [if_pos rfl] at h
        rcases ih h with h' | h'
        · exact Or.inl (List.mem_cons_of_mem c h')
        · exact Or.inr h'
      · rw [if_neg hb] at h
        rcases List.mem_cons.mp h with rfl | h'
        · exact Or.inr rfl
        · rcases ih h' with h'' | h''
          · exact Or.inl (List.mem_cons_of_mem c h'')
          · exact Or.inr h''
    · rw [collapseGo, if_neg hc] at h
      rcases List.mem_cons.mp h with rfl | h'
      · exact Or.inl (List.mem_cons_self _ _)
      · rcases ih h' with h'' | h''
        · exact Or.inl (List.mem_cons_of_mem c h'')
        · exact Or.inr h''

theorem mem_rep2 {a b c d x : Char} : ∀ (l : List Char),
    x ∈ rep2 a b c d l → x ∈ l ∨ x = c ∨ x = d
  | [], h => by simp [rep2] at h
  | [y], h => by simp [rep2] at h; simp [h]
  | y :: z :: r, h => by
    by_cases hg : y = a ∧ z = b
    · rw [rep2, if_pos hg] at h
      rcases List.mem_cons.mp h with rfl | h'
      · exact Or.inr (Or.inl rfl)
      · rcases List.mem_cons.mp h' with rfl | h''
        · exact Or.inr (Or.inr rfl)
        · rcases mem_rep2 r h'' with h3 | h3
          · exact Or.inl (List.mem_cons_of_mem y (List.mem_cons_of_mem z h3))
          · exact Or.inr h3
    · rw [rep2, if_neg hg] at h
      rcases List.mem_cons.mp h with rfl | h'
      · exact Or.inl (List.mem_cons_self _ _)
      · rcases mem_rep2 (z :: r) h' with h'' | h''
        · exact Or.inl (List.mem_cons_of_mem y h'')
        · exact Or.inr h''

theorem chain2_cons_cons_false {a b x y : Char} {r : List Char}
    (h : chain2 a b (x :: y :: r) = false) :
    (x == a && y == b) = false ∧ chain2 a b (y :: r) = false := by
  simp only [chain2, Bool.or_eq_false_iff] at h
  exact h

theorem rep2_eq_self {a b c d : Char} : ∀ (l : List Char), chain2 a b l = false →
    rep2 a b c d l = l
  | [], _ => rfl
  | [_], _ => rfl
  | x :: y :: r, h => by
    have h' := chain2_cons_cons_false h
    have hg : ¬(x = a ∧ y = b) := by
      rintro ⟨rfl, rfl⟩
      simp at h'
    rw [rep2, if_neg hg, rep2_eq_self (y :: r) h'.2]

theorem mem_pyStrip {x : Char} {l : List Char} (h : x ∈ pyStrip l) : x ∈ l :=
  mem_dropWhile (mem_dropWhileRight h)

theorem wsNorm_cons (c : Char) (cs : List Char) :
    wsNorm (c :: cs) = (wsOk c cs && wsNorm cs) := rfl

theorem wsOk_intro {c : Char} {cs : List Char} (h1 : isPySpace c = true → c = ' ')
    (h2 : ∀ x, cs.head? = some x → isPySpace c = false ∨ isPySpace x = false) :
    wsOk c cs = true := by
  unfold wsOk
  rw [Bool.and_eq_true]
  constructor
  · by_cases hc : isPySpace c = true
    · simp [h1 hc]
    · simp [hc]
  · cases e : cs.head? with
    | none => simp
    | some x =>
      rcases h2 x e with h | h
      · simp [h]
      · simp [h]

theorem wsOk_nonws {c : Char} {cs : List Char} (h : isPySpace c = false) :
    wsOk c cs = true :=
  wsOk_intro (fun hc => absurd hc (by simp [h])) (fun _ _ => Or.inl h)

theorem wsOk_space {c : Char} {cs : List Char} (h : wsOk c cs = true)
    (hc : isPySpace c = true) : c = ' ' := by
  unfold wsOk at h
  rw [Bool.and_eq_true] at h
  rcases Bool.or_eq_true_iff.mp h.1 with h1 | h1
  · rw [Bool.not_eq_true'] at h1
    exact absurd hc (by simp [h1])
  · exact beq_iff_eq.mp h1

theorem wsOk_adj {c : Char} {cs : List Char} (h : wsOk c cs = true)
    (hc : isPySpace c = true) {x : Char} (hx : cs.head? = some x) :
    isPySpace x = false := by
  unfold wsOk at h
  rw [hx, Bool.and_eq_true] at h
  have h2 := h.2
  rw [Bool.not_eq_true', Bool.and_eq_false_iff] at h2
  rcases h2 with h2 | h2
  · exact absurd hc (by simp [h2])
  · exact h2

theorem collapseGo_head {c : Char} (b : Bool) (cs : List Char)
    (hc : isPySpace c = false) :
    collapseGo b (c :: cs) = c :: collapseGo false cs := by
  rw [collapseGo, if_neg (by simp [hc])]

theorem getLast?_cons_of_ne_nil {α : Type} (a : α) {l : List α} (h : l ≠ []) :
    (a :: l).getLast? = l.getLast? := by
  cases l with
  | nil => exact absurd rfl h
  | cons x xs => exact List.getLast?_cons_cons

theorem collapseGo_getLast {x : Char} (hx : isPySpace x = false) :
    ∀ (l : List Char) (b : Bool), l.getLast? = some x →
      (collapseGo b l).getLast? = some x
  | [], _, h => by simp at h
  | [c], b, h => by
    have hcx : c = x := by simpa using h
    subst hcx
    rw [collapseGo_head b [] hx]
    simp [collapseGo]
  | c :: d :: r, b, h => by
    have h' : (d :: r).getLast? = some x := by rwa [List.getLast?_cons_cons] at h
    by_cases hc : isPySpace c = true
    · rw [collapseGo, if_pos hc]
      cases b with
      | true =>
        rw [if_pos rfl]
        exact collapseGo_getLast hx (d :: r) true h'
      | false =>
        rw [if_neg (by simp)]
        have ht := collapseGo_getLast hx (d :: r) true h'
        have hne : collapseGo true (d :: r) ≠ [] := by
          intro e
          rw [e] at ht
          simp at ht
        rw [getLast?_cons_of_ne_nil ' ' hne]
        exact ht
    · rw [collapseGo, if_neg hc]
      have ht := collapseGo_getLast hx (d :: r) false h'
      have hne : collapseGo false (d :: r) ≠ [] := by
        intro e
        rw [e] at ht
        simp at ht
      rw [getLast?_cons_of_ne_nil c hne]
      exact ht

theorem collapseGo_true_head : ∀ (l : List Char) (x : Char),
    (collapseGo true l).head? = some x → isPySpace x = false
  | [], x, h => by simp [collapseGo] at h
  | c :: cs, x, h => by
    by_cases hc : isPySpace c = true
    · rw [collapseGo, if_pos hc, if_pos rfl] at h
      exact collapseGo_true_head cs x h
    · rw [collapseGo, if_neg hc] at h
      simp only [List.head?_cons, Option.some.injEq] at h
      subst h
      simpa using hc

theorem wsNorm_collapseGo : ∀ (l : List Char) (b : Bool),
    wsNorm (collapseGo b l) = true
  | [], _ => rfl
  | c :: cs, b => by
    by_cases hc : isPySpace c = true
    · cases b with
      | true =>
        rw [collapseGo, if_pos hc, if_pos rfl]
        exact wsNorm_collapseGo cs true
      | false =>
        rw [collapseGo, if_pos hc, if_neg (by simp)]
        rw [wsNorm_cons]
        have h1 := wsNorm_collapseGo cs true
        have h2 : wsOk ' ' (collapseGo true cs) = true := by
          refine wsOk_intro (fun _ => rfl) ?_
          intro x hx
          exact Or.inr (collapseGo_true_head cs x hx)
        simp [h1, h2]
    · rw [collapseGo, if_neg hc, wsNorm_cons]
      have h1 := wsNorm_collapseGo cs false
      have h2 : wsOk c (collapseGo false cs) = true := wsOk_nonws (by simpa using hc)
      simp [h1, h2]

theorem collapseGo_fix : ∀ (l : List Char), wsNorm l = true →
    collapseGo false l = l ∧
    ((∀ x, l.head? = some x → isPySpace x = false) → collapseGo true l = l)
  | [], _ => ⟨rfl, fun _ => rfl⟩
  | c :: cs, h => by
    rw [wsNorm_cons, Bool.and_eq_true] at h
    obtain ⟨hok, hrest⟩ := h
    by_cases hc : isPySpace c = true
    · have hsp : c = ' ' := wsOk_space hok hc
      have hhead : ∀ x, cs.head? = some x → isPySpace x = false :=
        fun x hx => wsOk_adj hok hc hx
      constructor
      · rw [collapseGo, if_pos hc, if_neg (by simp)]
        rw [(collapseGo_fix cs hrest).2 hhead, hsp]
      · intro hx
        exact absurd hc (by simp [hx c rfl])
    · constructor
      · rw [collapseGo, if_neg hc, (collapseGo_fix cs hrest).1]
      · intro _
        rw [collapseGo, if_neg hc, (collapseGo_fix cs hrest).1]

theorem rep2_head (a b c d : Char) : ∀ (l : List Char),
    (rep2 a b c d l).head? = l.head? ∨ (rep2 a b c d l).head? = some c
  | [] => Or.inl rfl
  | [x] => Or.inl rfl
  | x :: y :: r => by
    by_cases hg : x = a ∧ y = b
    · rw [rep2, if_pos hg]
      exact Or.inr rfl
    · rw [rep2, if_neg hg]
      exact Or.inl rfl

theorem rep2_ne_nil {a b c d : Char} : ∀ {l : List Char}, l ≠ [] → rep2 a b c d l ≠ []
  | [], h => absurd rfl h
  | [x], _ => by simp [rep2]
  | x :: y :: r, _ => by
    by_cases hg : x = a ∧ y = b
    · rw [rep2, if_pos hg]
      simp
    · rw [rep2, if_neg hg]
      simp

theorem rep2_getLast (a b c d : Char) : ∀ (l : List Char),
    (rep2 a b c d l).getLast? = l.getLast? ∨ (rep2 a b c d l).getLast? = some d
  | [] => Or.inl rfl
  | [x] => Or.inl rfl
  | x :: y :: r => by
    by_cases hg : x = a ∧ y = b
    · rw [rep2, if_pos hg]
      cases r with
      | nil => exact Or.inr (by simp [rep2])
      | cons z zs =>
        have hne : rep2 a b c d (z :: zs) ≠ [] := rep2_ne_nil (by simp)
        rcases rep2_getLast a b c d (z :: zs) with h | h
        · left
          rw [List.getLast?_cons_cons, getLast?_cons_of_ne_nil d hne, h,
            List.getLast?_cons_cons, List.getLast?_cons_cons]
        · right
          rw [List.getLast?_cons_cons, getLast?_cons_of_ne_nil d hne, h]
    · rw [rep2, if_neg hg]
      have hne : rep2 a b c d (y :: r) ≠ [] := rep2_ne_nil (by simp)
      rcases rep2_getLast a b c d (y :: r) with h | h
      · left
        rw [getLast?_cons_of_ne_nil x hne, h, List.getLast?_cons_cons]
      · right
        rw [getLast?_cons_of_ne_nil x hne, h]

theorem rep2_wsNorm {a b c d : Char} (ha : isPySpace a = false)
    (hb : isPySpace b = false) (hc : isPySpace c = false) (hd : isPySpace d = false) :
    ∀ (l : List Char), wsNorm l = true → wsNorm (rep2 a b c d l) = true
  | [], _ => rfl
  | [x], h => by rwa [rep2]
  | x :: y :: r, h => by
    rw [wsNorm_cons, Bool.and_eq_true] at h
    obtain ⟨hok, hrest⟩ := h
    by_cases hg : x = a ∧ y = b
    · rw [rep2, if_pos hg]
      have hr : wsNorm r = true := by
        rw [wsNorm_cons, Bool.and_eq_true] at hrest
        exact hrest.2
      have hrr := rep2_wsNorm ha hb hc hd r hr
      rw [wsNorm_cons, wsNorm_cons]
      simp [wsOk_nonws hc, wsOk_nonws hd, hrr]
    · rw [rep2, if_neg hg]
      have hyr := rep2_wsNorm ha hb hc hd (y :: r) hrest
      rw [wsNorm_cons]
      have h1 : wsOk x (rep2 a b c d (y :: r)) = true := by
        by_cases hx : isPySpace x = true
        · refine wsOk_intro (fun _ => wsOk_space hok hx) ?_
          intro z hz
          rcases rep2_head a b c d (y :: r) with hh | hh
          · rw [hz] at hh
            have hzy : y = z := by simpa using hh.symm
            subst hzy
            exact Or.inr (wsOk_adj hok hx rfl)
          · rw [hz] at hh
            have hzc : c = z := by simpa using hh.symm
            subst hzc
            exact Or.inr hc
        · exact wsOk_nonws (by simpa using hx)
      simp [h1, hyr]

theorem chain2_false_cons {p q x : Char} {l : List Char}
    (h1 : ∀ y, l.head? = some y → ¬(x = p ∧ y = q))
    (h2 : chain2 p q l = false) : chain2 p q (x :: l) = false := by
  cases l with
  | nil => rfl
  | cons y r =>
    simp only [chain2, Bool.or_eq_false_iff]
    refine ⟨?_, h2⟩
    by_cases hx : x = p
    · by_cases hy : y = q
      · exact absurd ⟨hx, hy⟩ (h1 y rfl)
      · simp [hy]
    · simp [hx]

theorem chain2_false_tail {p q y : Char} {r : List Char}
    (h : chain2 p q (y :: r) = false) : chain2 p q r = false := by
  cases r with
  | nil => rfl
  | cons z zs => exact (chain2_cons_cons_false h).2

theorem rep2_no_self {a b c d : Char} (hcd : (c == a && d == b) = false)
    (hda : d ≠ a) (hcb : c ≠ b) :
    ∀ (l : List Char), chain2 a b (rep2 a b c d l) = false
  | [] => rfl
  | [x] => rfl
  | x :: y :: r => by
    by_cases hg : x = a ∧ y = b
    · rw [rep2, if_pos hg]
      apply chain2_false_cons
      · intro z hz hzz
        have hzd : d = z := by simpa using hz
        subst hzd
        simp [hzz.1, hzz.2] at hcd
      · apply chain2_false_cons
        · intro z _ hzz
          exact hda hzz.1
        · exact rep2_no_self hcd hda hcb r
    · rw [rep2, if_neg hg]
      apply chain2_false_cons
      · intro z hz hzz
        rcases rep2_head a b c d (y :: r) with hh | hh
        · rw [hz] at hh
          have hzy : y = z := by simpa using hh.symm
          subst hzy
          exact hg ⟨hzz.1, hzz.2⟩
        · rw [hz] at hh
          have hzc : c = z := by simpa using hh.symm
          subst hzc
          exact hcb hzz.2
      · exact rep2_no_self hcd hda hcb (y :: r)

theorem rep2_no_other {p q a b c d : Char} (hpq : (c == p && d == q) = false)
    (hdp : d ≠ p) (hcq : c ≠ q) :
    ∀ (l : List Char), chain2 p q l = false → chain2 p q (rep2 a b c d l) = false
  | [], _ => rfl
  | [x], _ => rfl
  | x :: y :: r, h => by
    have hdec := chain2_cons_cons_false h
    by_cases hg : x = a ∧ y = b
    · rw [rep2, if_pos hg]
      apply chain2_false_cons
      · intro z hz hzz
        have hzd : d = z := by simpa using hz
        subst hzd
        simp [hzz.1, hzz.2] at hpq
      · apply chain2_false_cons
        · intro z _ hzz
          exact hdp hzz.1
        · exact rep2_no_other hpq hdp hcq r (chain2_false_tail hdec.2)
    · rw [rep2, if_neg hg]
      apply chain2_false_cons
      · intro z hz hzz
        rcases rep2_head a b c d (y :: r) with hh | hh
        · rw [hz] at hh
          have hzy : y = z := by simpa using hh.symm
          subst hzy
          simp [hzz.1, hzz.2] at hdec
        · rw [hz] at hh
          have hzc : c = z := by simpa using hh.symm
          subst hzc
          exact hcq hzz.2
      · exact rep2_no_other hpq hdp hcq (y :: r) hdec.2

theorem isPySpace_false_of_punctWs {c : Char} (h : isPunctWs c = false) :
    isPySpace c = false := by
  unfold isPunctWs at h
  simp only [Bool.or_eq_false_iff] at h
  exact h.2

theorem dropWhile_eq_self_pred {p : Char → Bool} {l : List Char}
    (h : ∀ c, l.head? = some c → p c = false) : l.dropWhile p = l := by
  cases l with
  | nil => rfl
  | cons c cs => exact dropWhile_cons_false cs (h c rfl)

theorem dropWhileRight_eq_self_pred {p : Char → Bool} {l : List Char}
    (h : ∀ c, l.getLast? = some c → p c = false) : dropWhileRight p l = l := by
  cases l with
  | nil => rfl
  | cons c cs =>
    cases e : (c :: cs).getLast? with
    | none => simp [List.getLast?_cons] at e
    | some x => exact dropWhileRight_eq_self e (h x e)

theorem cleanNormal_nil : cleanNormal [] :=
  ⟨by simp, by simp, by simp, rfl, rfl, rfl, rfl, rfl⟩

theorem cleanNormal_clean_text (s : List Char) : cleanNormal (clean_text s) := by
  by_cases hs : s.isEmpty = true
  · unfold clean_text
    rw [if_pos hs]
    exact cleanNormal_nil
  · unfold clean_text
    rw [if_neg hs]
    show cleanNormal (pyStrip (rep2 '重' '法' '方' '法' (rep2 '钦' '件' '软' '件'
      (rep2 '折' '又' '折' '叠' (rep2 '基' '浮' '悬' '浮' (collapseWs
        (dropWhileRight isPunctWs (List.dropWhile isPunctWs (pyStrip
          (remChar '"' (remChar '"' (remChar '。' (remChar '，'
            (remPair '|' '|' (remChar '|' s)))))))))))))))
    set t6 := remChar '"' (remChar '"' (remChar '。' (remChar '，'
      (remPair '|' '|' (remChar '|' s))))) with ht6
    set t7 := pyStrip t6 with ht7
    set t8 := List.dropWhile isPunctWs t7 with ht8
    set t9 := dropWhileRight isPunctWs t8 with ht9
    set t10 := collapseWs t9 with ht10
    set t11 := rep2 '基' '浮' '悬' '浮' t10 with ht11
    set t12 := rep2 '折' '又' '折' '叠' t11 with ht12
    set t13 := rep2 '钦' '件' '软' '件' t12 with ht13
    set t14 := rep2 '重' '法' '方' '法' t13 with ht14
    have nf6 : ∀ x ∈ t6, x ≠ '|' ∧ x ≠ '，' ∧ x ≠ '。' ∧ x ≠ '"' := by
      intro x hx
      rw [ht6] at hx
      obtain ⟨hx5, hq⟩ := mem_remChar hx
      obtain ⟨hx4, _⟩ := mem_remChar hx5
      obtain ⟨hx3, hp⟩ := mem_remChar hx4
      obtain ⟨hx2, hcm⟩ := mem_remChar hx3
      obtain ⟨_, hbar⟩ := mem_remChar (mem_remPair _ hx2)
      exact ⟨hbar, hcm, hp, hq⟩
    have nf9 : ∀ x ∈ t9, x ≠ '|' ∧ x ≠ '，' ∧ x ≠ '。' ∧ x ≠ '"' := by
      intro x hx
      rw [ht9] at hx
      exact nf6 x (mem_pyStrip (mem_dropWhile (mem_dropWhileRight hx)))
    have nf10 : ∀ x ∈ t10, x ≠ '|' ∧ x ≠ '，' ∧ x ≠ '。' ∧ x ≠ '"' := by
      intro x hx
      rw [ht10] at hx
      unfold collapseWs at hx
      rcases mem_collapseGo hx with h | h
      · exact nf9 x h
      · subst h
        exact ⟨by decide, by decide, by decide, by decide⟩
    have nf11 : ∀ x ∈ t11, x ≠ '|' ∧ x ≠ '，' ∧ x ≠ '。' ∧ x ≠ '"' := by
      intro x hx
      rw [ht11] at hx
      rcases mem_rep2 _ hx with h | h | h
      · exact nf10 x h
      · subst h; exact ⟨by decide, by decide, by decide, by decide⟩
      · subst h; exact ⟨by decide, by decide, by decide, by decide⟩
    have nf12 : ∀ x ∈ t12, x ≠ '|' ∧ x ≠ '，' ∧ x ≠ '。' ∧ x ≠ '"' := by
      intro x hx
      rw [ht12] at hx
      rcases mem_rep2 _ hx with h | h | h
      · exact nf11 x h
      · subst h; exact ⟨by decide, by decide, by decide, by decide⟩
      · subst h; exact ⟨by decide, by decide, by decide, by decide⟩
    have nf13 : ∀ x ∈ t13, x ≠ '|' ∧ x ≠ '，' ∧ x ≠ '。' ∧ x ≠ '"' := by
      intro x hx
      rw [ht13] at hx
      rcases mem_rep2 _ hx with h | h | h
      · exact nf12 x h
      · subst h; exact ⟨by decide, by decide, by decide, by decide⟩
      · subst h; exact ⟨by decide, by decide, by decide, by decide⟩
    have nf14 : ∀ x ∈ t14, x ≠ '|' ∧ x ≠ '，' ∧ x ≠ '。' ∧ x ≠ '"' := by
      intro x hx
      rw [ht14] at hx
      rcases mem_rep2 _ hx with h | h | h
      · exact nf13 x h
      · subst h; exact ⟨by decide, by decide, by decide, by decide⟩
      · subst h; exact ⟨by decide, by decide, by decide, by decide⟩
    have eL8 : ∀ x, t8.head? = some x → isPunctWs x = false := by
      intro x hx
      rw [ht8] at hx
      exact head?_dropWhile_false hx
    have eL9 : ∀ x, t9.head? = some x → isPunctWs x = false := by
      intro x hx
      by_cases h9 : t9 = []
      · rw [h9] at hx
        simp at hx
      · rw [ht9] at hx h9
        rw [head?_dropWhileRight_ne h9] at hx
        exact eL8 x hx
    have eR9 : ∀ x, t9.getLast? = some x → isPunctWs x = false := by
      intro x hx
      rw [ht9] at hx
      exact getLast?_dropWhileRight hx
    have eL10 : ∀ x, t10.head? = some x → isPunctWs x = false := by
      intro x hx
      rw [ht10] at hx
      cases e : t9 with
      | nil =>
        rw [e] at hx
        simp [collapseWs, collapseGo] at hx
      | cons c cs =>
        have hc : isPunctWs c = false := eL9 c (by rw [e]; rfl)
        rw [e] at hx
        have hcol : collapseWs (c :: cs) = c :: collapseGo false cs :=
          collapseGo_head false cs (isPySpace_false_of_punctWs hc)
        rw [hcol] at hx
        simp only [List.head?_cons, Option.some.injEq] at hx
        rw [← hx]
        exact hc
    have eR10 : ∀ x, t10.getLast? = some x → isPunctWs x = false := by
      intro x hx
      cases e : t9.getLast? with
      | none =>
        have h9 : t9 = [] := by
          cases h : t9 with
          | nil => rfl
          | cons c cs =>
            rw [h] at e
            simp [List.getLast?_cons] at e
        rw [ht10, h9] at hx
        simp [collapseWs, collapseGo] at hx
      | some z =>
        have hz := eR9 z e
        have hcg := collapseGo_getLast (isPySpace_false_of_punctWs hz) t9 false e
        rw [ht10] at hx
        unfold collapseWs at hx
        rw [hcg] at hx
        have hzx : z = x := by simpa using hx
        rw [← hzx]
        exact hz
    have eL11 : ∀ x, t11.head? = some x → isPunctWs x = false := by
      intro x hx
      rw [ht11] at hx
      rcases rep2_head '基' '浮' '悬' '浮' t10 with hh | hh
      · rw [hh] at hx
        exact eL10 x hx
      · rw [hh] at hx
        have : '悬' = x := by simpa using hx
        rw [← this]
        decide
    have eR11 : ∀ x, t11.getLast? = some x → isPunctWs x = false := by
      intro x hx
      rw [ht11] at hx
      rcases rep2_getLast '基' '浮' '悬' '浮' t10 with hh | hh
      · rw [hh] at hx
        exact eR10 x hx
      · rw [hh] at hx
        have : '浮' = x := by simpa using hx
        rw [← this]
        decide
    have eL12 : ∀ x, t12.head? = some x → isPunctWs x = false := by
      intro x hx
      rw [ht12] at hx
      rcases rep2_head '折' '又' '折' '叠' t11 with hh | hh
      · rw [hh] at hx
        exact eL11 x hx
      · rw [hh] at hx
        have : '折' = x := by simpa using hx
        rw [← this]
        decide
    have eR12 : ∀ x, t12.getLast? = some x → isPunctWs x = false := by
      intro x hx
      rw [ht12] at hx
      rcases rep2_getLast '折' '又' '折' '叠' t11 with hh | hh
      · rw [hh] at hx
        exact eR11 x hx
      · rw [hh] at hx
        have : '叠' = x := by simpa using hx
        rw [← this]
        decide
    have eL13 : ∀ x, t13.head? = some x → isPunctWs x = false := by
      intro x hx
      rw [ht13] at hx
      rcases rep2_head '钦' '件' '软' '件' t12 with hh | hh
      · rw [hh] at hx
        exact eL12 x hx
      · rw [hh] at hx
        have : '软' = x := by simpa using hx
        rw [← this]
        decide
    have eR13 : ∀ x, t13.getLast? = some x → isPunctWs x = false := by
      intro x hx
      rw [ht13] at hx
      rcases rep2_getLast '钦' '件' '软' '件' t12 with hh | hh
      · rw [hh] at hx
        exact eR12 x hx
      · rw [hh] at hx
        have : '件' = x := by simpa using hx
        rw [← this]
        decide
    have eL14 : ∀ x, t14.head? = some x → isPunctWs x = false := by
      intro x hx
      rw [ht14] at hx
      rcases rep2_head '重' '法' '方' '法' t13 with hh | hh
      · rw [hh] at hx
        exact eL13 x hx
      · rw [hh] at hx
        have : '方' = x := by simpa using hx
        rw [← this]
        decide
    have eR14 : ∀ x, t14.getLast? = some x → isPunctWs x = false := by
      intro x hx
      rw [ht14] at hx
      rcases rep2_getLast '重' '法' '方' '法' t13 with hh | hh
      · rw [hh] at hx
        exact eR13 x hx
      · rw [hh] at hx
        have : '法' = x := by simpa using hx
        rw [← this]
        decide
    have wn10 : wsNorm t10 = true := by
      rw [ht10]
      unfold collapseWs
      exact wsNorm_collapseGo t9 false
    have wn11 : wsNorm t11 = true := by
      rw [ht11]
      exact rep2_wsNorm (by decide) (by decide) (by decide) (by decide) t10 wn10
    have wn12 : wsNorm t12 = true := by
      rw [ht12]
      exact rep2_wsNorm (by decide) (by decide) (by decide) (by decide) t11 wn11
    have wn13 : wsNorm t13 = true := by
      rw [ht13]
      exact rep2_wsNorm (by decide) (by decide) (by decide) (by decide) t12 wn12
    have wn14 : wsNorm t14 = true := by
      rw [ht14]
      exact rep2_wsNorm (by decide) (by decide) (by decide) (by decide) t13 wn13
    have ch11 : chain2 '基' '浮' t11 = false := by
      rw [ht11]
      exact rep2_no_self (by decide) (by decide) (by decide) t10
    have ch12a : chain2 '基' '浮' t12 = false := by
      rw [ht12]
      exact rep2_no_other (by decide) (by decide) (by decide) t11 ch11
    have ch12b : chain2 '折' '又' t12 = false := by
      rw [ht12]
      exact rep2_no_self (by decide) (by decide) (by decide) t11
    have ch13a : chain2 '基' '浮' t13 = false := by
      rw [ht13]
      exact rep2_no_other (by decide) (by decide) (by decide) t12 ch12a
    have ch13b : chain2 '折' '又' t13 = false := by
      rw [ht13]
      exact rep2_no_other (by decide) (by decide) (by decide) t12 ch12b
    have ch13c : chain2 '钦' '件' t13 = false := by
      rw [ht13]
      exact rep2_no_self (by decide) (by decide) (by decide) t12
    have ch14a : chain2 '基' '浮' t14 = false := by
      rw [ht14]
      exact rep2_no_other (by decide) (by decide) (by decide) t13 ch13a
    have ch14b : chain2 '折' '又' t14 = false := by
      rw [ht14]
      exact rep2_no_other (by decide) (by decide) (by decide) t13 ch13b
    have ch14c : chain2 '钦' '件' t14 = false := by
      rw [ht14]
      exact rep2_no_other (by decide) (by decide) (by decide) t13 ch13c
    have ch14d : chain2 '重' '法' t14 = false := by
      rw [ht14]
      exact rep2_no_self (by decide) (by decide) (by decide) t13
    have hstrip : pyStrip t14 = t14 :=
      pyStrip_eq_self (fun c h => isPySpace_false_of_punctWs (eL14 c h))
        (fun c h => isPySpace_false_of_punctWs (eR14 c h))
    rw [hstrip]
    exact ⟨nf14, eL14, eR14, wn14, ch14a, ch14b, ch14c, ch14d⟩

theorem clean_text_of_cleanNormal (t : List Char) (h : cleanNormal t) :
    clean_text t = t := by
  obtain ⟨nf, eL, eR, wn, c1, c2, c3, c4⟩ := h
  by_cases ht : t.isEmpty = true
  · unfold clean_text
    rw [if_pos ht]
    exact (List.isEmpty_iff.mp ht).symm
  · unfold clean_text
    rw [if_neg ht]
    show pyStrip (rep2 '重' '法' '方' '法' (rep2 '钦' '件' '软' '件'
      (rep2 '折' '又' '折' '叠' (rep2 '基' '浮' '悬' '浮' (collapseWs
        (dropWhileRight isPunctWs (List.dropWhile isPunctWs (pyStrip
          (remChar '"' (remChar '"' (remChar '。' (remChar '，'
            (remPair '|' '|' (remChar '|' t)))))))))))))) = t
    have hts : pyStrip t = t :=
      pyStrip_eq_self (fun c hc => isPySpace_false_of_punctWs (eL c hc))
        (fun c hc => isPySpace_false_of_punctWs (eR c hc))
    have hcw : collapseWs t = t := (collapseGo_fix t wn).1
    rw [remChar_eq_self '|' t (fun x hx => (nf x hx).1),
      remPair_eq_self t (fun x hx => (nf x hx).1),
      remChar_eq_self '，' t (fun x hx => (nf x hx).2.1),
      remChar_eq_self '。' t (fun x hx => (nf x hx).2.2.1),
      remChar_eq_self '"' t (fun x hx => (nf x hx).2.2.2),
      remChar_eq_self '"' t (fun x hx => (nf x hx).2.2.2),
      hts, dropWhile_eq_self_pred eL, dropWhileRight_eq_self_pred eR, hcw,
      rep2_eq_self t c1, rep2_eq_self t c2, rep2_eq_self t c3, rep2_eq_self t c4,
      hts]

/-- C6: the per-field cleaning function of `generate_excel.py` is
idempotent: applying `clean_text` twice gives the same result as applying
it once, for every string. -/
theorem clean_text_idempotent (s : List Char) :
    clean_text (clean_text s) = clean_text s :=
  clean_text_of_cleanNormal (clean_text s) (cleanNormal_clean_text s)

end CCE
